import Mathlib

/-!
Verification of the DEM ingestion / chunking pipeline and the water-flow
simulator of the FilesConvertor repository.

Shallow embedding conventions:
* JS numbers are modelled as `ℚ` with exact arithmetic; `NaN` is modelled
  as the `none` case of `Option ℚ` wherever the source can produce it
  (`parseFloat` results, grid cells).
* `Math.floor` is `Int.floor`, `Math.ceil` is `Int.ceil`.
* `Math.SQRT2` is the exact rational value of the IEEE-754 double that the
  JS engine stores for it.
* Fallible JS functions that return `null` are modelled with `Option`.
* The mutable global `state.firstDemAbsoluteOrigin` is passed explicitly as
  an `Origin` argument.

Source files embedded: `js/uiManager.js` (the `parseASCIIGrid` section,
originally `demParser.js`), `js/demProcessor.js` (`processAndChunkDEM`),
`js/waterFlowSimulator.js` (`worldToGrid`, `getElevationAtGrid`,
`gridToWorld`, `calculateRaindropPath`), `js/constants.js`.
-/

namespace FilesConvertor

/-- `js/constants.js`: `MAX_POINTS_PER_CHUNK = 10_000_000`. -/
def MAX_POINTS_PER_CHUNK : ℤ := 10000000

/-- `js/constants.js`: `DEFAULT_NODATA_VALUE = -99`. -/
def DEFAULT_NODATA_VALUE : ℚ := -99

/-- `js/constants.js`: `DEFAULT_XLLCORNER = 0`. -/
def DEFAULT_XLLCORNER : ℚ := 0

/-- `js/constants.js`: `DEFAULT_YLLCORNER = 0`. -/
def DEFAULT_YLLCORNER : ℚ := 0

/-- `js/waterFlowSimulator.js`: `MAX_PATH_STEPS = 2000`. -/
def MAX_PATH_STEPS : ℕ := 2000

/-- Exact rational value of the IEEE-754 double `Math.SQRT2`. -/
def SQRT2 : ℚ := 6369051672525773 / 4503599627370496

/-- The six recognized ASCII-Grid header keys (`headerKeys` in the parser). -/
inductive HKey
  | ncols | nrows | xllcorner | yllcorner | cellsize | nodata
deriving DecidableEq, Repr

/-- One whitespace token of an input line.  `num q` is a token that JS
`parseFloat` reads as the rational `q`; `key k` is one of the six header
key words (case-normalized); `junk` is any other token (`parseFloat`
yields `NaN`). -/
inductive Tok
  | num (q : ℚ)
  | key (k : HKey)
  | junk
deriving DecidableEq, Repr

/-- `parseFloat` on a token; `none` models `NaN`. -/
def parseFloat : Tok → Option ℚ
  | Tok.num q => some q
  | _ => none

/-- Whether `parseFloat` on the token is not `NaN`
(the `!isNaN(parseFloat(p))` test of the data-start heuristic). -/
def Tok.isNum : Tok → Bool
  | Tok.num _ => true
  | _ => false

/-- One line of the input text.  `empty` is the empty string (falsy in JS),
`ws` is a nonempty whitespace-only string (truthy, but trims to blank),
`toks ts` is a line whose whitespace-split tokens are `ts`. -/
inductive Line
  | empty
  | ws
  | toks (ts : List Tok)
deriving DecidableEq, Repr

/-- The partially built `header` object of the parser: each key is either
absent (`none`) or assigned a `parseFloat` result (`some v`, where
`v = none` models a stored `NaN`). -/
structure HdrMap where
  ncols : Option (Option ℚ) := none
  nrows : Option (Option ℚ) := none
  xllcorner : Option (Option ℚ) := none
  yllcorner : Option (Option ℚ) := none
  cellsize : Option (Option ℚ) := none
  nodata : Option (Option ℚ) := none
deriving DecidableEq, Repr

/-- `header[k] = v` (the assignment in the header-scan loop). -/
def setKey (h : HdrMap) (k : HKey) (v : Option ℚ) : HdrMap :=
  match k with
  | HKey.ncols => { h with ncols := some v }
  | HKey.nrows => { h with nrows := some v }
  | HKey.xllcorner => { h with xllcorner := some v }
  | HKey.yllcorner => { h with yllcorner := some v }
  | HKey.cellsize => { h with cellsize := some v }
  | HKey.nodata => { h with nodata := some v }

/-- `header[k]` lookup. -/
def getKey (h : HdrMap) (k : HKey) : Option (Option ℚ) :=
  match k with
  | HKey.ncols => h.ncols
  | HKey.nrows => h.nrows
  | HKey.xllcorner => h.xllcorner
  | HKey.yllcorner => h.yllcorner
  | HKey.cellsize => h.cellsize
  | HKey.nodata => h.nodata

/-- `Object.keys(header).length`. -/
def hdrCount (h : HdrMap) : ℕ :=
  (if h.ncols.isSome then 1 else 0) + (if h.nrows.isSome then 1 else 0) +
  (if h.xllcorner.isSome then 1 else 0) + (if h.yllcorner.isSome then 1 else 0) +
  (if h.cellsize.isSome then 1 else 0) + (if h.nodata.isSome then 1 else 0)

/-- The validated header record actually returned by the parser
(raw float values, not yet floored). -/
structure Hdr where
  ncols : ℚ
  nrows : ℚ
  xllcorner : ℚ
  yllcorner : ℚ
  cellsize : ℚ
  nodata_value : ℚ
deriving DecidableEq, Repr

/-- The `{header, data, minElev, maxElev}` result of the parser.  A grid
cell is `Option ℚ`, with `none` modelling a `NaN` produced by `parseFloat`
on a non-numeric data token. -/
structure ParsedDEM where
  header : Hdr
  data : List (List (Option ℚ))
  minElev : ℚ
  maxElev : ℚ
deriving DecidableEq, Repr

/-!
## Grid Parser (`parseASCIIGrid`)

The header-scan loop of `parseASCIIGrid`.  Returns `none` when the JS code
throws (caught at the function boundary, turning into a `null` return),
and otherwise the built header object together with the suffix of lines
starting at `dataStartIndex` (which stays at the whole input when no
data-start line was detected, exactly as `dataStartIndex === 0` does).
-/
def scanHdr (full : List Line) : List Line → ℕ → HdrMap → Option (HdrMap × List Line)
  | [], _, h => some (h, full)
  | l :: rest, i, h =>
    match l with
    | Line.empty => scanHdr full rest (i + 1) h
    | Line.ws => scanHdr full rest (i + 1) h
    | Line.toks ts =>
      match ts with
      | [] => scanHdr full rest (i + 1) h
      | Tok.key k :: v :: _ =>
        let h2 := setKey h k (parseFloat v)
        if 10 < i ∧ hdrCount h2 < 4 then none
        else if rest = [] then none
        else scanHdr full rest (i + 1) h2
      | t0 :: tRest =>
        if 5 ≤ hdrCount h ∧ (t0 :: tRest).all Tok.isNum then some (h, l :: rest)
        else if 10 < i ∧ hdrCount h < 4 then none
        else if rest = [] then none
        else scanHdr full rest (i + 1) h

/-- Present-and-numeric header value, or the given default
(the optional-field defaulting of the parser). -/
def numOr (o : Option (Option ℚ)) (d : ℚ) : ℚ :=
  match o with
  | some (some v) => v
  | _ => d

/-- Required-field validation plus optional-field defaulting of
`parseASCIIGrid`; `none` models the thrown `MalformedHeader` error. -/
def validateHdr (h : HdrMap) : Option Hdr :=
  match getKey h HKey.ncols, getKey h HKey.nrows, getKey h HKey.cellsize with
  | some (some nc), some (some nr), some (some cs) =>
    some { ncols := nc, nrows := nr, cellsize := cs,
           xllcorner := numOr (getKey h HKey.xllcorner) DEFAULT_XLLCORNER,
           yllcorner := numOr (getKey h HKey.yllcorner) DEFAULT_YLLCORNER,
           nodata_value := numOr (getKey h HKey.nodata) DEFAULT_NODATA_VALUE }
  | _, _, _ => none

/-- `rowToAdd`: an `ncols`-wide row prefilled with NODATA and overwritten
by the parsed values of the line (`new Array(ncols).fill(nodata)` plus the
copy loop up to `min(values.length, ncols)`). -/
def buildRow (n : ℕ) (nodata : ℚ) (vals : List (Option ℚ)) : List (Option ℚ) :=
  (List.range n).map fun k => vals.getD k (some nodata)

/-- The parsed values of one data line.  An empty string line is falsy and
yields a pure NODATA fill; a whitespace-only line is truthy and splits to
one empty token, i.e. a single `NaN` value. -/
def lineVals : Option Line → List (Option ℚ)
  | none => []
  | some Line.empty => []
  | some Line.ws => [none]
  | some (Line.toks ts) => ts.map parseFloat

/-- The elevation-data loop of `parseASCIIGrid`.  `none` models the
`RangeError` of `new Array(ncols)` for a negative `ncols` (which is thrown
in every branch of the first executed iteration). -/
def parseRows (ncolsI nrowsI : ℤ) (nodata : ℚ) (dataLines : List Line) :
    Option (List (List (Option ℚ))) :=
  if 1 ≤ nrowsI ∧ ncolsI < 0 then none
  else some ((List.range nrowsI.toNat).map fun i =>
    match dataLines.get? i with
    | none => buildRow ncolsI.toNat nodata []
    | some l => buildRow ncolsI.toNat nodata (lineVals (some l)))

/-- One step of the running min/max accumulation: a valid cell is one that
is `!== nodata_value` and not `NaN`. -/
def mmStep (nodata : ℚ) (acc : Option (ℚ × ℚ)) (c : Option ℚ) : Option (ℚ × ℚ) :=
  match c with
  | some v =>
    if v = nodata then acc
    else
      match acc with
      | none => some (v, v)
      | some (mn, mx) => some (min mn v, max mx v)
  | none => acc

/-- The min/max fold over all cells of the grid, in row-major order;
`none` models the initial `Infinity / -Infinity` state (no valid point). -/
def foldMinMax (nodata : ℚ) (rows : List (List (Option ℚ))) : Option (ℚ × ℚ) :=
  rows.foldl (fun acc row => row.foldl (mmStep nodata) acc) none

/-- `parseASCIIGrid` over an input text given as a list of lines.
`none` models the `null` return on any caught error. -/
def parseASCIIGrid (lines : List Line) : Option ParsedDEM :=
  match scanHdr lines lines 0 {} with
  | none => none
  | some (h, dataLines) =>
    match validateHdr h with
    | none => none
    | some hdr =>
      match parseRows ⌊hdr.ncols⌋ ⌊hdr.nrows⌋ hdr.nodata_value dataLines with
      | none => none
      | some rows =>
        let mm := foldMinMax hdr.nodata_value rows
        some { header := hdr, data := rows,
               minElev := (mm.map Prod.fst).getD 0,
               maxElev := (mm.map Prod.snd).getD 0 }

/-!
## Tile Splitter (`processAndChunkDEM`, `js/demProcessor.js`)
-/

/-- A named tile produced by the splitter. -/
structure Tile where
  name : String
  parsedData : ParsedDEM
deriving DecidableEq, Repr

/-- `startRowOrig = Math.floor(cy * originalHeader.nrows / numChunksY)`. -/
def startRowOrig (hdr : Hdr) (Ty cy : ℕ) : ℤ := ⌊(cy : ℚ) * hdr.nrows / (Ty : ℚ)⌋

/-- `endRowOrig = Math.floor((cy + 1) * originalHeader.nrows / numChunksY)`. -/
def endRowOrig (hdr : Hdr) (Ty cy : ℕ) : ℤ := ⌊((cy : ℚ) + 1) * hdr.nrows / (Ty : ℚ)⌋

/-- `startColOrig = Math.floor(cx * originalHeader.ncols / numChunksX)`. -/
def startColOrig (hdr : Hdr) (Tx cx : ℕ) : ℤ := ⌊(cx : ℚ) * hdr.ncols / (Tx : ℚ)⌋

/-- `endColOrig = Math.floor((cx + 1) * originalHeader.ncols / numChunksX)`. -/
def endColOrig (hdr : Hdr) (Tx cx : ℕ) : ℤ := ⌊((cx : ℚ) + 1) * hdr.ncols / (Tx : ℚ)⌋

/-- `Array.prototype.slice(s, e)` on a list, with the MDN clamping rules
for possibly negative or out-of-range integer arguments. -/
def jsSlice (l : List α) (s e : ℤ) : List α :=
  let len : ℤ := l.length
  let s2 : ℤ := if s < 0 then max (len + s) 0 else min s len
  let e2 : ℤ := if e < 0 then max (len + e) 0 else min e len
  if s2 < e2 then (l.drop s2.toNat).take (e2 - s2).toNat else []

/-- Outcome of one iteration of the chunk data-extraction loop:
the row is skipped entirely (original row index out of header bounds),
pushed as a NODATA fill (original row data missing), or pushed as a slice
of the original row (only this case feeds the chunk min/max scan). -/
inductive RowRes
  | skip
  | fill (row : List (Option ℚ))
  | slice (row : List (Option ℚ))
deriving DecidableEq, Repr

/-- One iteration of the chunk data-extraction loop for chunk-local row
index `r`. -/
def chunkRow (hdr : Hdr) (data : List (List (Option ℚ)))
    (startRow : ℤ) (chunkNCols : ℤ) (startCol endCol : ℤ) (r : ℕ) : RowRes :=
  let originalRowIndex : ℤ := startRow + r
  if originalRowIndex < 0 ∨ (originalRowIndex : ℚ) ≥ hdr.nrows then RowRes.skip
  else
    match data.get? originalRowIndex.toNat with
    | none => RowRes.fill (List.replicate chunkNCols.toNat (some hdr.nodata_value))
    | some rowData => RowRes.slice (jsSlice rowData startCol endCol)

/-- The pushed data row of a loop iteration, when any. -/
def rowResToRow : RowRes → Option (List (Option ℚ))
  | RowRes.skip => none
  | RowRes.fill row => some row
  | RowRes.slice row => some row

/-- The chunk min/max accumulation of a loop iteration: only sliced rows
are scanned. -/
def rowResMM (nodata : ℚ) (acc : Option (ℚ × ℚ)) : RowRes → Option (ℚ × ℚ)
  | RowRes.slice row => row.foldl (mmStep nodata) acc
  | _ => acc

/-- `mkChunk hdr data baseName Ty Tx cy cx` builds the tile at chunk grid
position `(cy, cx)`; `none` models the `continue` that skips chunks with
non-positive extent. -/
def mkChunk (hdr : Hdr) (data : List (List (Option ℚ))) (baseName : String)
    (Ty Tx cy cx : ℕ) : Option Tile :=
  let startRow := startRowOrig hdr Ty cy
  let endRow := endRowOrig hdr Ty cy
  let chunkNRows := endRow - startRow
  let startCol := startColOrig hdr Tx cx
  let endCol := endColOrig hdr Tx cx
  let chunkNCols := endCol - startCol
  if chunkNCols ≤ 0 ∨ chunkNRows ≤ 0 then none
  else
    let chunkHeader : Hdr :=
      { hdr with
        ncols := (chunkNCols : ℚ), nrows := (chunkNRows : ℚ),
        xllcorner := hdr.xllcorner + (startCol : ℚ) * hdr.cellsize,
        yllcorner := hdr.yllcorner + (hdr.nrows - (endRow : ℚ)) * hdr.cellsize }
    let rowRes := (List.range chunkNRows.toNat).map
      (chunkRow hdr data startRow chunkNCols startCol endCol)
    let chunkData := rowRes.filterMap rowResToRow
    let mm := rowRes.foldl (rowResMM hdr.nodata_value) none
    some { name := baseName ++ "_part" ++ Nat.repr cy ++ "_" ++ Nat.repr cx,
           parsedData :=
             { header := chunkHeader, data := chunkData,
               minElev := (mm.map Prod.fst).getD 0,
               maxElev := (mm.map Prod.snd).getD 0 } }

/-- The double emission loop over `(cy, cx)` in row-major order. -/
def chunkEmit (hdr : Hdr) (data : List (List (Option ℚ))) (baseName : String)
    (Ty Tx : ℕ) : List Tile :=
  (List.range Ty).flatMap fun cy =>
    (List.range Tx).filterMap fun cx => mkChunk hdr data baseName Ty Tx cy cx

/-- The `while (true)` search for `(numChunksX, numChunksY)`.  `some none`
models the safety-break fallback (return the unsplit original); `none` is
fuel exhaustion, a modelling artifact that the caller's fuel choice makes
unreachable for the headers the claims quantify over. -/
def findChunksAux (nc nr : ℚ) : ℕ → ℕ → ℕ → Option (Option (ℕ × ℕ))
  | 0, _, _ => none
  | fuel + 1, X, Y =>
    if ⌈nc / (X : ℚ)⌉ * ⌈nr / (Y : ℚ)⌉ ≤ MAX_POINTS_PER_CHUNK then some (some (X, Y))
    else
      let XY := if (X : ℚ) * nr > (Y : ℚ) * nc then (X, Y + 1) else (X + 1, Y)
      if (XY.1 : ℚ) > nc ∧ (XY.2 : ℚ) > nr then some none
      else findChunksAux nc nr fuel XY.1 XY.2

/-- `processAndChunkDEM`: pass the grid through unsplit when it is within
the point budget, otherwise split it into chunks. -/
def processAndChunkDEM (pd : ParsedDEM) (originalFileName : String) :
    Option (List Tile) :=
  if pd.header.ncols * pd.header.nrows ≤ (MAX_POINTS_PER_CHUNK : ℚ) then
    some [{ name := originalFileName, parsedData := pd }]
  else
    match findChunksAux pd.header.ncols pd.header.nrows
        (⌈pd.header.ncols⌉.toNat + ⌈pd.header.nrows⌉.toNat + 2) 1 1 with
    | none => none
    | some none => some [{ name := originalFileName, parsedData := pd }]
    | some (some (X, Y)) => some (chunkEmit pd.header pd.data originalFileName Y X)

/-!
## Coordinate Mapper and Flow Simulator (`js/waterFlowSimulator.js`)
-/

/-- A scene-world point (`THREE.Vector3`). -/
structure Vec3 where
  x : ℚ
  y : ℚ
  z : ℚ
deriving DecidableEq, Repr

/-- The global `state.firstDemAbsoluteOrigin`, whose components start as
`null`. -/
structure Origin where
  x : Option ℚ
  y : Option ℚ
deriving DecidableEq, Repr

/-- `worldToGrid(sceneWorldPoint, demHeader)`: scene-world point to grid
cell indices, `none` when the cellsize is invalid, the origin is unset, or
the computed cell is outside the header bounds. -/
def worldToGrid (origin : Origin) (p : Vec3) (demHeader : Hdr) : Option (ℤ × ℤ) :=
  if demHeader.cellsize ≤ 0 then none
  else
    match origin.x, origin.y with
    | some ox, some oy =>
      let absGeoClickX := p.x + ox
      let absGeoClickY := p.y + oy
      let planeWidth := (demHeader.ncols - 1) * demHeader.cellsize
      let planeHeight := (demHeader.nrows - 1) * demHeader.cellsize
      let blX := demHeader.xllcorner - planeWidth / 2
      let blY := demHeader.yllcorner - planeHeight / 2
      let col : ℤ := ⌊(absGeoClickX - blX) / demHeader.cellsize⌋
      let row : ℤ := ⌊(absGeoClickY - blY) / demHeader.cellsize⌋
      if col < 0 ∨ (col : ℚ) ≥ demHeader.ncols ∨ row < 0 ∨ (row : ℚ) ≥ demHeader.nrows
      then none
      else some (col, row)
    | _, _ => none

/-- `getElevationAtGrid(col, row, demData)`: `none` when out of header
bounds, missing from the data array, `NaN`, or equal to NODATA. -/
def getElevationAtGrid (col row : ℤ) (demData : ParsedDEM) : Option ℚ :=
  if row < 0 ∨ (row : ℚ) ≥ demData.header.nrows ∨ col < 0 ∨ (col : ℚ) ≥ demData.header.ncols
  then none
  else
    match (demData.data.get? row.toNat).bind (fun r => r.get? col.toNat) with
    | none => none
    | some none => none
    | some (some elevation) =>
      if elevation = demData.header.nodata_value then none else some elevation

/-- `gridToWorld(col, row, demData)`: the scene-world coordinates of the
center of the cell, with the cell's elevation as `z`. -/
def gridToWorld (origin : Origin) (col row : ℤ) (demData : ParsedDEM) : Option Vec3 :=
  match getElevationAtGrid col row demData with
  | none => none
  | some elevation =>
    match origin.x, origin.y with
    | some ox, some oy =>
      let header := demData.header
      let planeWidth := (header.ncols - 1) * header.cellsize
      let planeHeight := (header.nrows - 1) * header.cellsize
      let absX := header.xllcorner + (((col : ℚ) + 1/2) * header.cellsize - planeWidth / 2)
      let absY := header.yllcorner + (((row : ℚ) + 1/2) * header.cellsize - planeHeight / 2)
      some { x := absX - ox, y := absY - oy, z := elevation }
    | _, _ => none

/-- The fixed neighbor enumeration of the step loop:
W, E, S, N, SW, SE, NW, NE (`dc`, `dr`, `dist`). -/
def neighbors : List (ℤ × ℤ × ℚ) :=
  [(-1, 0, 1), (1, 0, 1), (0, -1, 1), (0, 1, 1),
   (-1, -1, SQRT2), (1, -1, SQRT2), (-1, 1, SQRT2), (1, 1, SQRT2)]

/-- The body of the neighbor scan, folded over `neighbors` with the
accumulator `(steepestSlope, nextGridPos together with its elevation)`. -/
def neighborScanStep (demData : ParsedDEM) (pos : ℤ × ℤ) (currentElevation : ℚ)
    (acc : ℚ × Option ((ℤ × ℤ) × ℚ)) (nb : ℤ × ℤ × ℚ) : ℚ × Option ((ℤ × ℤ) × ℚ) :=
  let ncol := pos.1 + nb.1
  let nrow := pos.2 + nb.2.1
  match getElevationAtGrid ncol nrow demData with
  | some nElev =>
    if nElev < currentElevation then
      let slope := (currentElevation - nElev) / (nb.2.2 * demData.header.cellsize)
      if slope > acc.1 then (slope, some ((ncol, nrow), nElev)) else acc
    else acc
  | none => acc

/-- One step of the raindrop walk: the selected `(nextGridPos,
nextCellCenterElevation)` pair, or `none` when no downhill neighbor
qualifies. -/
def stepOnce (demData : ParsedDEM) (pos : ℤ × ℤ) (currentElevation : ℚ) :
    Option ((ℤ × ℤ) × ℚ) :=
  (neighbors.foldl (neighborScanStep demData pos currentElevation) (0, none)).2

/-- The main `for (step …)` loop of `calculateRaindropPath`, returning the
points appended after the starting point. -/
def pathLoop (origin : Origin) (demData : ParsedDEM) :
    ℕ → ℤ × ℤ → ℚ → List Vec3
  | 0, _, _ => []
  | n + 1, pos, currentElevation =>
    match stepOnce demData pos currentElevation with
    | none => []
    | some (pos2, elev2) =>
      match gridToWorld origin pos2.1 pos2.2 demData with
      | none => []
      | some p => p :: pathLoop origin demData n pos2 elev2

/-- `calculateRaindropPath(initialClickSceneWorldPoint, demEntry)`. -/
def calculateRaindropPath (origin : Origin) (initialClick : Vec3)
    (demData : ParsedDEM) : List Vec3 :=
  match worldToGrid origin initialClick demData.header with
  | none => []
  | some pos =>
    match getElevationAtGrid pos.1 pos.2 demData with
    | none => []
    | some currentElevation =>
      match gridToWorld origin pos.1 pos.2 demData with
      | none => []
      | some startPoint =>
        startPoint :: pathLoop origin demData MAX_PATH_STEPS pos currentElevation

/-!
## Specification-side definitions

These follow the wording of the spec claims; the theorems below compare
them with the source-derived definitions above.
-/

/-- Candidate test for one neighbor, following the claim wording: a
neighbor with a strictly lower, non-NODATA elevation is a candidate,
paired with its slope `(currentElevation - neighborElevation) /
(neighborDistance * cellsize)`.  The entry is
`((cell, neighborElevation), slope)`. -/
def candFn (demData : ParsedDEM) (pos : ℤ × ℤ) (currentElevation : ℚ)
    (nb : ℤ × ℤ × ℚ) : Option (((ℤ × ℤ) × ℚ) × ℚ) :=
  match getElevationAtGrid (pos.1 + nb.1) (pos.2 + nb.2.1) demData with
  | some nElev =>
    if nElev < currentElevation then
      some (((pos.1 + nb.1, pos.2 + nb.2.1), nElev),
            (currentElevation - nElev) / (nb.2.2 * demData.header.cellsize))
    else none
  | none => none

/-- The candidate list of one flow step: the 8 neighbors in the fixed
order W, E, S, N, SW, SE, NW, NE, filtered by `candFn`. -/
def candidates (demData : ParsedDEM) (pos : ℤ × ℤ) (currentElevation : ℚ) :
    List (((ℤ × ℤ) × ℚ) × ℚ) :=
  neighbors.filterMap (candFn demData pos currentElevation)

/-- One step of keeping the first element of strictly greatest score. -/
def pickStep {α : Type} (acc : Option (α × ℚ)) (c : α × ℚ) : Option (α × ℚ) :=
  match acc with
  | none => some c
  | some a => if c.2 > a.2 then some c else acc

/-- First element of greatest score in a scored list (ties keep the
earliest element), following the claim wording for the selection rule. -/
def pickFirstMax {α : Type} (l : List (α × ℚ)) : Option (α × ℚ) :=
  l.foldl pickStep none

/-- Whether a line is a header line assigning a numeric (non-`NaN`) value
to the key `k`. -/
def assignsNum (l : Line) (k : HKey) : Bool :=
  match l with
  | Line.toks (Tok.key k2 :: v :: _) => k2 == k && (parseFloat v).isSome
  | _ => false

/-- The value of a cell that is neither `NaN` nor equal to the NODATA
sentinel. -/
def cellVal (nodata : ℚ) : Option ℚ → Option ℚ
  | some v => if v = nodata then none else some v
  | none => none

/-- All valid cell values of a grid in row-major order. -/
def validCells (nodata : ℚ) (rows : List (List (Option ℚ))) : List ℚ :=
  rows.flatMap fun row => row.filterMap (cellVal nodata)

/-- The min/max accumulation step restricted to valid values. -/
def mmValStep (acc : Option (ℚ × ℚ)) (v : ℚ) : Option (ℚ × ℚ) :=
  match acc with
  | none => some (v, v)
  | some (mn, mx) => some (min mn v, max mx v)

/-- The claimed min/max contract: over the valid cells when any exist,
and `0` for both otherwise. -/
def minmaxOk (nodata mn mx : ℚ) (rows : List (List (Option ℚ))) : Prop :=
  (validCells nodata rows = [] → mn = 0 ∧ mx = 0) ∧
  (validCells nodata rows ≠ [] →
    mn ∈ validCells nodata rows ∧ mx ∈ validCells nodata rows ∧
    ∀ v ∈ validCells nodata rows, mn ≤ v ∧ v ≤ mx)

/-- The five header keys present in a canonical text omitting `kmiss`. -/
def presentKeys (kmiss : HKey) : List HKey :=
  [HKey.ncols, HKey.nrows, HKey.xllcorner, HKey.yllcorner, HKey.cellsize,
   HKey.nodata].filter fun k => !(k == kmiss)

/-- A canonical ASCII-Grid text: one `KEY VALUE` line per present header
key (values given by `f`), followed by all-numeric data rows. -/
def canonicalText (kmiss : HKey) (f : HKey → ℚ) (ds : List (List ℚ)) : List Line :=
  ((presentKeys kmiss).map fun k => Line.toks [Tok.key k, Tok.num (f k)]) ++
    (ds.map fun row => Line.toks (row.map Tok.num))

/-- The header the parser is expected to return for a canonical text with
key `kmiss` omitted: provided values, with the fixed default substituted
for the omitted key. -/
def expectedHdr (kmiss : HKey) (f : HKey → ℚ) : Hdr :=
  { ncols := f HKey.ncols, nrows := f HKey.nrows, cellsize := f HKey.cellsize,
    xllcorner := if kmiss = HKey.xllcorner then DEFAULT_XLLCORNER else f HKey.xllcorner,
    yllcorner := if kmiss = HKey.yllcorner then DEFAULT_YLLCORNER else f HKey.yllcorner,
    nodata_value := if kmiss = HKey.nodata then DEFAULT_NODATA_VALUE else f HKey.nodata }

/-!
## Concrete instances used by witnesses and counterexamples
-/

/-- A 3×3 funnel tile: elevation 5 on the ring, 0 in the center. -/
def demW : ParsedDEM :=
  { header := { ncols := 3, nrows := 3, xllcorner := 0, yllcorner := 0,
                cellsize := 1, nodata_value := -9999 },
    data := [[some 5, some 5, some 5], [some 5, some 0, some 5],
             [some 5, some 5, some 5]],
    minElev := 0, maxElev := 5 }

/-- A set global origin at the geographic origin. -/
def originW : Origin := { x := some 0, y := some 0 }

/-- A 2×2 header used by the splitter witnesses. -/
def hdrW2 : Hdr :=
  { ncols := 2, nrows := 2, xllcorner := 100, yllcorner := 200,
    cellsize := 10, nodata_value := -9999 }

/-- The 2×2 grid data for `hdrW2`. -/
def dataW2 : List (List (Option ℚ)) := [[some 1, some 2], [some 3, some 4]]

/-- The parsed DEM for the splitter pass-through witness. -/
def pdW2 : ParsedDEM := { header := hdrW2, data := dataW2, minElev := 1, maxElev := 4 }

/-- The first tile of `chunkEmit hdrW2 dataW2 "f.asc" 2 2`. -/
def tileW : Tile :=
  { name := "f.asc_part0_0",
    parsedData :=
      { header := { ncols := 1, nrows := 1, xllcorner := 100, yllcorner := 210,
                    cellsize := 10, nodata_value := -9999 },
        data := [[some 1]], minElev := 1, maxElev := 1 } }

/-- The file name used by the splitter witnesses. -/
def nameW : String := "f.asc"

/-- An input text whose `ncols` and `nrows` both floor to `0`: five header
lines followed by one numeric data line. -/
def exC7c : List Line :=
  [Line.toks [Tok.key HKey.ncols, Tok.num 0],
   Line.toks [Tok.key HKey.nrows, Tok.num 0],
   Line.toks [Tok.key HKey.xllcorner, Tok.num 0],
   Line.toks [Tok.key HKey.yllcorner, Tok.num 0],
   Line.toks [Tok.key HKey.cellsize, Tok.num 1],
   Line.toks [Tok.num 1]]

/-- An input text that never assigns a numeric `ncols` (the value token is
non-numeric). -/
def exC7w : List Line :=
  [Line.toks [Tok.key HKey.ncols, Tok.junk],
   Line.toks [Tok.key HKey.nrows, Tok.num 2],
   Line.toks [Tok.key HKey.cellsize, Tok.num 1],
   Line.toks [Tok.num 1, Tok.num 2]]

/-- An input text with numeric `ncols`, `nrows`, `cellsize` (and
`nodata_value`) that omits both `xllcorner` and `yllcorner`, followed by a
well-formed numeric data row. -/
def exC8c : List Line :=
  [Line.toks [Tok.key HKey.ncols, Tok.num 2],
   Line.toks [Tok.key HKey.nrows, Tok.num 1],
   Line.toks [Tok.key HKey.cellsize, Tok.num 1],
   Line.toks [Tok.key HKey.nodata, Tok.num (-9999)],
   Line.toks [Tok.num 7, Tok.num 8]]

/-- Header values for the canonical-text witness of the defaulting
behavior. -/
def fC8 : HKey → ℚ
  | HKey.ncols => 2
  | HKey.nrows => 1
  | HKey.xllcorner => 10
  | HKey.yllcorner => 20
  | HKey.cellsize => 1
  | HKey.nodata => -9999

/-- A 3×2 input text with one NODATA cell, for the min/max witness. -/
def exC9 : List Line :=
  [Line.toks [Tok.key HKey.ncols, Tok.num 3],
   Line.toks [Tok.key HKey.nrows, Tok.num 2],
   Line.toks [Tok.key HKey.xllcorner, Tok.num 10],
   Line.toks [Tok.key HKey.yllcorner, Tok.num 20],
   Line.toks [Tok.key HKey.cellsize, Tok.num 1],
   Line.toks [Tok.key HKey.nodata, Tok.num (-9999)],
   Line.toks [Tok.num 1, Tok.num 2, Tok.num (-9999)],
   Line.toks [Tok.num 4, Tok.num 5, Tok.num 6]]

/-- The parse result of `exC9`. -/
def pdC9 : ParsedDEM :=
  { header := { ncols := 3, nrows := 2, xllcorner := 10, yllcorner := 20,
                cellsize := 1, nodata_value := -9999 },
    data := [[some 1, some 2, some (-9999)], [some 4, some 5, some 6]],
    minElev := 1, maxElev := 6 }

/-!
## Helper lemmas: proportional floor-division partition (Tile Splitter)
-/

lemma floor_mul_div_natCast (k n T : ℕ) :
    ⌊((k : ℚ) * (n : ℚ)) / (T : ℚ)⌋ = ((k * n / T : ℕ) : ℤ) := by
  have h1 : ((k : ℚ) * (n : ℚ)) = (((k * n : ℕ) : ℤ) : ℚ) := by push_cast; ring
  rw [h1, Rat.floor_intCast_div_natCast]
  exact (Int.natCast_div _ _).symm

lemma startRowOrig_eq (hdr : Hdr) (n Ty cy : ℕ) (hn : hdr.nrows = (n : ℚ)) :
    startRowOrig hdr Ty cy = ((cy * n / Ty : ℕ) : ℤ) := by
  rw [startRowOrig, hn, floor_mul_div_natCast]

lemma endRowOrig_eq (hdr : Hdr) (n Ty cy : ℕ) (hn : hdr.nrows = (n : ℚ)) :
    endRowOrig hdr Ty cy = (((cy + 1) * n / Ty : ℕ) : ℤ) := by
  rw [endRowOrig, hn]
  have h1 : ((cy : ℚ) + 1) = ((cy + 1 : ℕ) : ℚ) := by push_cast; ring
  rw [h1, floor_mul_div_natCast]

lemma startColOrig_eq (hdr : Hdr) (m Tx cx : ℕ) (hm : hdr.ncols = (m : ℚ)) :
    startColOrig hdr Tx cx = ((cx * m / Tx : ℕ) : ℤ) := by
  rw [startColOrig, hm, floor_mul_div_natCast]

lemma endColOrig_eq (hdr : Hdr) (m Tx cx : ℕ) (hm : hdr.ncols = (m : ℚ)) :
    endColOrig hdr Tx cx = (((cx + 1) * m / Tx : ℕ) : ℤ) := by
  rw [endColOrig, hm]
  have h1 : ((cx : ℚ) + 1) = ((cx + 1 : ℕ) : ℚ) := by push_cast; ring
  rw [h1, floor_mul_div_natCast]

/-- `a < (a / b + 1) * b` for positive `b`. -/
lemma lt_div_succ_mul (a b : ℕ) (hb : 0 < b) : a < (a / b + 1) * b :=
  (Nat.div_lt_iff_lt_mul hb).1 (Nat.lt_succ_self _)

/-- Existence half of the coverage property of the proportional
floor-division boundaries. -/
lemma chunk_cover (n T r : ℕ) (hT : 0 < T) (hr : r < n) :
    ∃ cy, cy < T ∧ cy * n / T ≤ r ∧ r + 1 ≤ (cy + 1) * n / T := by
  have hn : 0 < n := Nat.lt_of_le_of_lt (Nat.zero_le r) hr
  refine ⟨(r * T + (T - 1)) / n, ?_, ?_, ?_⟩
  · rw [Nat.div_lt_iff_lt_mul hn]
    have h1 : (r + 1) * T ≤ n * T := Nat.mul_le_mul_right T hr
    have h2 : (r + 1) * T = r * T + T := by ring
    have h3 : T * n = n * T := Nat.mul_comm T n
    rw [h3]
    set A := r * T
    set B := n * T
    omega
  · have h1 : (r * T + (T - 1)) / n * n ≤ r * T + (T - 1) :=
      Nat.div_mul_le_self _ _
    have h2 : (r * T + (T - 1)) / n * n / T < r + 1 := by
      rw [Nat.div_lt_iff_lt_mul hT]
      have h3 : (r + 1) * T = r * T + T := by ring
      set A := (r * T + (T - 1)) / n * n
      set B := r * T
      omega
    omega
  · rw [Nat.le_div_iff_mul_le hT]
    have h1 : r * T + (T - 1) < ((r * T + (T - 1)) / n + 1) * n :=
      lt_div_succ_mul _ _ hn
    have h2 : ((r * T + (T - 1)) / n + 1) * n = (r * T + (T - 1)) / n * n + n := by
      ring
    have h3 : (r + 1) * T = r * T + T := by ring
    set A := (r * T + (T - 1)) / n * n
    set B := r * T
    omega

/-- Two proportional chunks that both contain the same row index
coincide. -/
lemma chunk_disjoint (n T : ℕ) {cy1 cy2 r : ℕ}
    (ha1 : cy1 * n / T ≤ r) (ha2 : r + 1 ≤ (cy1 + 1) * n / T)
    (hb1 : cy2 * n / T ≤ r) (hb2 : r + 1 ≤ (cy2 + 1) * n / T) : cy1 = cy2 := by
  rcases Nat.lt_trichotomy cy1 cy2 with h | h | h
  · exfalso
    have h1 : (cy1 + 1) * n ≤ cy2 * n := Nat.mul_le_mul_right n h
    have h2 : (cy1 + 1) * n / T ≤ cy2 * n / T := Nat.div_le_div_right h1
    omega
  · exact h
  · exfalso
    have h1 : (cy2 + 1) * n ≤ cy1 * n := Nat.mul_le_mul_right n h
    have h2 : (cy2 + 1) * n / T ≤ cy1 * n / T := Nat.div_le_div_right h1
    omega

/-- Chunk-size lower bound `n / T`. -/
lemma chunk_size_lb (n T cy : ℕ) (hT : 0 < T) :
    cy * n / T + n / T ≤ (cy + 1) * n / T := by
  rw [Nat.le_div_iff_mul_le hT, Nat.add_mul]
  have h1 : cy * n / T * T ≤ cy * n := Nat.div_mul_le_self _ _
  have h2 : n / T * T ≤ n := Nat.div_mul_le_self _ _
  have h3 : (cy + 1) * n = cy * n + n := by ring
  set A := cy * n / T * T
  set B := n / T * T
  set C := cy * n
  omega

/-- Chunk-size upper bound `n / T + 1`. -/
lemma chunk_size_ub (n T cy : ℕ) (hT : 0 < T) :
    (cy + 1) * n / T ≤ cy * n / T + n / T + 1 := by
  have key : (cy + 1) * n / T < cy * n / T + n / T + 2 := by
    rw [Nat.div_lt_iff_lt_mul hT]
    have h1 : cy * n < (cy * n / T + 1) * T := lt_div_succ_mul _ _ hT
    have h2 : n < (n / T + 1) * T := lt_div_succ_mul _ _ hT
    have h3 : (cy * n / T + 1) * T = cy * n / T * T + T := by ring
    have h4 : (n / T + 1) * T = n / T * T + T := by ring
    have h5 : (cy * n / T + n / T + 2) * T = cy * n / T * T + n / T * T + 2 * T := by
      ring
    have h6 : (cy + 1) * n = cy * n + n := by ring
    set A := cy * n / T * T
    set B := n / T * T
    set C := cy * n
    set D := (cy + 1) * n
    omega
  omega

/-!
## Claims about the Tile Splitter
-/

/-- C6: for every `ParsedDEM` input with `ncols*nrows <=
MAX_POINTS_PER_TILE` (default 10,000,000), `processAndChunkDEM` returns a
single-element list whose element carries the original name and the very
same parsed data object as the input. -/
theorem spec_c6 (pd : ParsedDEM) (originalFileName : String)
    (h : pd.header.ncols * pd.header.nrows ≤ (MAX_POINTS_PER_CHUNK : ℚ)) :
    processAndChunkDEM pd originalFileName =
      some [{ name := originalFileName, parsedData := pd }] := by
  unfold processAndChunkDEM
  rw [if_pos h]

/-- Witness for C6 at a concrete 2×2 grid. -/
theorem spec_c6_witness :
    pdW2.header.ncols * pdW2.header.nrows ≤ (MAX_POINTS_PER_CHUNK : ℚ) ∧
    processAndChunkDEM pdW2 nameW = some [{ name := nameW, parsedData := pdW2 }] :=
  ⟨by norm_num [pdW2, hdrW2, MAX_POINTS_PER_CHUNK],
   spec_c6 pdW2 nameW (by norm_num [pdW2, hdrW2, MAX_POINTS_PER_CHUNK])⟩

/-- C5: every tile emitted by the splitter's chunk loop has header fields
`ncols = endCol - startCol`, `nrows = endRow - startRow`,
`xllcorner = original xllcorner + startCol*cellsize`,
`yllcorner = original yllcorner + (originalNrows - endRow)*cellsize`, and
all other header fields copied unchanged from the original. -/
theorem spec_c5 (hdr : Hdr) (data : List (List (Option ℚ))) (baseName : String)
    (Ty Tx : ℕ) (tile : Tile) (ht : tile ∈ chunkEmit hdr data baseName Ty Tx) :
    ∃ cy cx : ℕ, cy < Ty ∧ cx < Tx ∧
      tile.parsedData.header.ncols =
        ((endColOrig hdr Tx cx - startColOrig hdr Tx cx : ℤ) : ℚ) ∧
      tile.parsedData.header.nrows =
        ((endRowOrig hdr Ty cy - startRowOrig hdr Ty cy : ℤ) : ℚ) ∧
      tile.parsedData.header.xllcorner =
        hdr.xllcorner + ((startColOrig hdr Tx cx : ℤ) : ℚ) * hdr.cellsize ∧
      tile.parsedData.header.yllcorner =
        hdr.yllcorner + (hdr.nrows - ((endRowOrig hdr Ty cy : ℤ) : ℚ)) * hdr.cellsize ∧
      tile.parsedData.header.cellsize = hdr.cellsize ∧
      tile.parsedData.header.nodata_value = hdr.nodata_value := by
  rcases List.mem_flatMap.1 ht with ⟨cy, hcy, hmem⟩
  rcases List.mem_filterMap.1 hmem with ⟨cx, hcx, hmk⟩
  refine ⟨cy, cx, List.mem_range.1 hcy, List.mem_range.1 hcx, ?_⟩
  simp only [mkChunk] at hmk
  split at hmk
  · cases hmk
  · cases hmk
    exact ⟨rfl, rfl, rfl, rfl, rfl, rfl⟩

lemma mkChunkW00 : mkChunk hdrW2 dataW2 nameW 2 2 0 0 = some tileW := by
  norm_num [mkChunk, startColOrig, endColOrig, startRowOrig, endRowOrig, hdrW2,
    dataW2, tileW, nameW]
  refine ⟨by decide, ?_, ?_, ?_⟩ <;>
    norm_num [List.range_succ, List.filterMap_cons, Function.comp, chunkRow,
      jsSlice, mmStep, rowResToRow, rowResMM, hdrW2]

lemma tileW_mem : tileW ∈ chunkEmit hdrW2 dataW2 nameW 2 2 :=
  List.mem_flatMap.2 ⟨0, by simp, List.mem_filterMap.2 ⟨0, by simp, mkChunkW00⟩⟩

/-- Witness for C5 at a concrete 2×2 grid split into 2×2 tiles. -/
theorem spec_c5_witness :
    tileW ∈ chunkEmit hdrW2 dataW2 nameW 2 2 ∧
    (∃ cy cx : ℕ, cy < 2 ∧ cx < 2 ∧
      tileW.parsedData.header.ncols =
        ((endColOrig hdrW2 2 cx - startColOrig hdrW2 2 cx : ℤ) : ℚ) ∧
      tileW.parsedData.header.nrows =
        ((endRowOrig hdrW2 2 cy - startRowOrig hdrW2 2 cy : ℤ) : ℚ) ∧
      tileW.parsedData.header.xllcorner =
        hdrW2.xllcorner + ((startColOrig hdrW2 2 cx : ℤ) : ℚ) * hdrW2.cellsize ∧
      tileW.parsedData.header.yllcorner =
        hdrW2.yllcorner + (hdrW2.nrows - ((endRowOrig hdrW2 2 cy : ℤ) : ℚ)) * hdrW2.cellsize ∧
      tileW.parsedData.header.cellsize = hdrW2.cellsize ∧
      tileW.parsedData.header.nodata_value = hdrW2.nodata_value) :=
  ⟨tileW_mem, spec_c5 hdrW2 dataW2 nameW 2 2 tileW tileW_mem⟩

/-- C4: the proportional floor-division row and column ranges exactly
cover `[0,nrows) × [0,ncols)` with no gaps and no overlaps, every original
cell belongs to an emitted tile, and any two tiles differ by at most one
row and at most one column in size. -/
theorem spec_c4 (hdr : Hdr) (data : List (List (Option ℚ))) (baseName : String)
    (n m Ty Tx : ℕ) (hn : hdr.nrows = (n : ℚ)) (hm : hdr.ncols = (m : ℚ))
    (hTy : 0 < Ty) (hTx : 0 < Tx) :
    (∀ r : ℕ, r < n → ∃! cy : ℕ, cy < Ty ∧
      startRowOrig hdr Ty cy ≤ (r : ℤ) ∧ (r : ℤ) < endRowOrig hdr Ty cy) ∧
    (∀ c : ℕ, c < m → ∃! cx : ℕ, cx < Tx ∧
      startColOrig hdr Tx cx ≤ (c : ℤ) ∧ (c : ℤ) < endColOrig hdr Tx cx) ∧
    (∀ r c : ℕ, r < n → c < m → ∃ cy cx : ℕ, cy < Ty ∧ cx < Tx ∧
      startRowOrig hdr Ty cy ≤ (r : ℤ) ∧ (r : ℤ) < endRowOrig hdr Ty cy ∧
      startColOrig hdr Tx cx ≤ (c : ℤ) ∧ (c : ℤ) < endColOrig hdr Tx cx ∧
      (mkChunk hdr data baseName Ty Tx cy cx).isSome = true) ∧
    (∀ cy1 cy2 : ℕ, cy1 < Ty → cy2 < Ty →
      endRowOrig hdr Ty cy1 - startRowOrig hdr Ty cy1 ≤
        endRowOrig hdr Ty cy2 - startRowOrig hdr Ty cy2 + 1) ∧
    (∀ cx1 cx2 : ℕ, cx1 < Tx → cx2 < Tx →
      endColOrig hdr Tx cx1 - startColOrig hdr Tx cx1 ≤
        endColOrig hdr Tx cx2 - startColOrig hdr Tx cx2 + 1) := by
  have rowIn : ∀ r cy : ℕ,
      (startRowOrig hdr Ty cy ≤ (r : ℤ) ∧ (r : ℤ) < endRowOrig hdr Ty cy) ↔
      (cy * n / Ty ≤ r ∧ r + 1 ≤ (cy + 1) * n / Ty) := by
    intro r cy
    rw [startRowOrig_eq hdr n Ty cy hn, endRowOrig_eq hdr n Ty cy hn]
    constructor
    · intro ⟨h1, h2⟩
      exact ⟨by exact_mod_cast h1, by exact_mod_cast h2⟩
    · intro ⟨h1, h2⟩
      exact ⟨by exact_mod_cast h1, by exact_mod_cast h2⟩
  have colIn : ∀ c cx : ℕ,
      (startColOrig hdr Tx cx ≤ (c : ℤ) ∧ (c : ℤ) < endColOrig hdr Tx cx) ↔
      (cx * m / Tx ≤ c ∧ c + 1 ≤ (cx + 1) * m / Tx) := by
    intro c cx
    rw [startColOrig_eq hdr m Tx cx hm, endColOrig_eq hdr m Tx cx hm]
    constructor
    · intro ⟨h1, h2⟩
      exact ⟨by exact_mod_cast h1, by exact_mod_cast h2⟩
    · intro ⟨h1, h2⟩
      exact ⟨by exact_mod_cast h1, by exact_mod_cast h2⟩
  refine ⟨?_, ?_, ?_, ?_, ?_⟩
  · intro r hr
    obtain ⟨cy, hcyT, h1, h2⟩ := chunk_cover n Ty r hTy hr
    refine ⟨cy, ⟨hcyT, (rowIn r cy).2 ⟨h1, h2⟩⟩, ?_⟩
    intro cy2 ⟨hcy2T, hin2⟩
    obtain ⟨g1, g2⟩ := (rowIn r cy2).1 hin2
    exact chunk_disjoint n Ty g1 g2 h1 h2
  · intro c hc
    obtain ⟨cx, hcxT, h1, h2⟩ := chunk_cover m Tx c hTx hc
    refine ⟨cx, ⟨hcxT, (colIn c cx).2 ⟨h1, h2⟩⟩, ?_⟩
    intro cx2 ⟨hcx2T, hin2⟩
    obtain ⟨g1, g2⟩ := (colIn c cx2).1 hin2
    exact chunk_disjoint m Tx g1 g2 h1 h2
  · intro r c hr hc
    obtain ⟨cy, hcyT, h1, h2⟩ := chunk_cover n Ty r hTy hr
    obtain ⟨cx, hcxT, g1, g2⟩ := chunk_cover m Tx c hTx hc
    obtain ⟨i1, i2⟩ := (rowIn r cy).2 ⟨h1, h2⟩
    obtain ⟨j1, j2⟩ := (colIn c cx).2 ⟨g1, g2⟩
    refine ⟨cy, cx, hcyT, hcxT, i1, i2, j1, j2, ?_⟩
    simp only [mkChunk]
    rw [if_neg]
    · rfl
    · push_neg
      constructor
      · omega
      · omega
  · intro cy1 cy2 _ _
    have A1 := chunk_size_lb n Ty cy1 hTy
    have A2 := chunk_size_ub n Ty cy1 hTy
    have B1 := chunk_size_lb n Ty cy2 hTy
    have B2 := chunk_size_ub n Ty cy2 hTy
    rw [startRowOrig_eq hdr n Ty cy1 hn, endRowOrig_eq hdr n Ty cy1 hn,
      startRowOrig_eq hdr n Ty cy2 hn, endRowOrig_eq hdr n Ty cy2 hn]
    set s1 := cy1 * n / Ty
    set e1 := (cy1 + 1) * n / Ty
    set s2 := cy2 * n / Ty
    set e2 := (cy2 + 1) * n / Ty
    set t := n / Ty
    omega
  · intro cx1 cx2 _ _
    have A1 := chunk_size_lb m Tx cx1 hTx
    have A2 := chunk_size_ub m Tx cx1 hTx
    have B1 := chunk_size_lb m Tx cx2 hTx
    have B2 := chunk_size_ub m Tx cx2 hTx
    rw [startColOrig_eq hdr m Tx cx1 hm, endColOrig_eq hdr m Tx cx1 hm,
      startColOrig_eq hdr m Tx cx2 hm, endColOrig_eq hdr m Tx cx2 hm]
    set s1 := cx1 * m / Tx
    set e1 := (cx1 + 1) * m / Tx
    set s2 := cx2 * m / Tx
    set e2 := (cx2 + 1) * m / Tx
    set t := m / Tx
    omega

/-- Witness for C4 at a concrete 2×2 grid split into 2×2 tiles. -/
theorem spec_c4_witness :
    hdrW2.nrows = ((2 : ℕ) : ℚ) ∧ hdrW2.ncols = ((2 : ℕ) : ℚ) ∧
    (∀ r c : ℕ, r < 2 → c < 2 → ∃ cy cx : ℕ, cy < 2 ∧ cx < 2 ∧
      startRowOrig hdrW2 2 cy ≤ (r : ℤ) ∧ (r : ℤ) < endRowOrig hdrW2 2 cy ∧
      startColOrig hdrW2 2 cx ≤ (c : ℤ) ∧ (c : ℤ) < endColOrig hdrW2 2 cx ∧
      (mkChunk hdrW2 dataW2 nameW 2 2 cy cx).isSome = true) :=
  ⟨by norm_num [hdrW2], by norm_num [hdrW2],
    (spec_c4 hdrW2 dataW2 nameW 2 2 2 2 (by norm_num [hdrW2]) (by norm_num [hdrW2])
      (by decide) (by decide)).2.2.1⟩

/-!
## Helper lemmas: Coordinate Mapper and Flow Simulator
-/

lemma getElevationAtGrid_bounds {col row : ℤ} {demData : ParsedDEM} {e : ℚ}
    (h : getElevationAtGrid col row demData = some e) :
    0 ≤ col ∧ (col : ℚ) < demData.header.ncols ∧
    0 ≤ row ∧ (row : ℚ) < demData.header.nrows := by
  unfold getElevationAtGrid at h
  by_cases hb : row < 0 ∨ (row : ℚ) ≥ demData.header.nrows ∨ col < 0 ∨
      (col : ℚ) ≥ demData.header.ncols
  · rw [if_pos hb] at h
    cases h
  · push_neg at hb
    exact ⟨hb.2.2.1, hb.2.2.2, hb.1, hb.2.1⟩

lemma gridToWorld_z {origin : Origin} {col row : ℤ} {demData : ParsedDEM} {p : Vec3}
    (h : gridToWorld origin col row demData = some p) :
    getElevationAtGrid col row demData = some p.z := by
  unfold gridToWorld at h
  rcases he : getElevationAtGrid col row demData with _ | e
  · rw [he] at h
    cases h
  · rw [he] at h
    rcases hx : origin.x with _ | ox
    · rw [hx] at h
      cases h
    · rcases hy : origin.y with _ | oy
      · rw [hx, hy] at h
        cases h
      · rw [hx, hy] at h
        cases h
        rfl

lemma worldToGrid_origin {origin : Origin} {p : Vec3} {hdr : Hdr} {pr : ℤ × ℤ}
    (h : worldToGrid origin p hdr = some pr) :
    ∃ ox oy, origin.x = some ox ∧ origin.y = some oy := by
  unfold worldToGrid at h
  by_cases hcs : hdr.cellsize ≤ 0
  · rw [if_pos hcs] at h
    cases h
  · rw [if_neg hcs] at h
    rcases origin with ⟨x, y⟩
    rcases x with _ | ox
    · cases h
    · rcases y with _ | oy
      · cases h
      · exact ⟨ox, oy, rfl, rfl⟩

lemma gridToWorld_of_valid {origin : Origin} {col row : ℤ} {demData : ParsedDEM}
    {e ox oy : ℚ} (hx : origin.x = some ox) (hy : origin.y = some oy)
    (he : getElevationAtGrid col row demData = some e) :
    gridToWorld origin col row demData =
      some { x := demData.header.xllcorner + (((col : ℚ) + 1/2) * demData.header.cellsize -
                    (demData.header.ncols - 1) * demData.header.cellsize / 2) - ox,
             y := demData.header.yllcorner + (((row : ℚ) + 1/2) * demData.header.cellsize -
                    (demData.header.nrows - 1) * demData.header.cellsize / 2) - oy,
             z := e } := by
  unfold gridToWorld
  rw [he, hx, hy]

/-- The neighbor-scan fold preserves: the best cell so far was an in-grid,
strictly lower elevation. -/
lemma neighborScan_valid (demData : ParsedDEM) (pos : ℤ × ℤ) (ce : ℚ) :
    ∀ (ns : List (ℤ × ℤ × ℚ)) (s : ℚ) (b : Option ((ℤ × ℤ) × ℚ)),
      (∀ pe, b = some pe → getElevationAtGrid pe.1.1 pe.1.2 demData = some pe.2 ∧ pe.2 < ce) →
      ∀ pe, (ns.foldl (neighborScanStep demData pos ce) (s, b)).2 = some pe →
        getElevationAtGrid pe.1.1 pe.1.2 demData = some pe.2 ∧ pe.2 < ce := by
  intro ns
  induction ns with
  | nil => intro s b hb pe hpe; exact hb pe hpe
  | cons nb t ih =>
    intro s b hb pe hpe
    rw [List.foldl_cons] at hpe
    rcases hsc : neighborScanStep demData pos ce (s, b) nb with ⟨s2, b2⟩
    rw [hsc] at hpe
    refine ih s2 b2 ?_ pe hpe
    intro pe2 hpe2
    rcases he : getElevationAtGrid (pos.1 + nb.1) (pos.2 + nb.2.1) demData with _ | nElev
    · simp only [neighborScanStep, he] at hsc
      cases hsc
      exact hb pe2 hpe2
    · by_cases hlt : nElev < ce
      · by_cases hsl : s < (ce - nElev) / (nb.2.2 * demData.header.cellsize)
        · simp only [neighborScanStep, he, if_pos hlt, gt_iff_lt, if_pos hsl] at hsc
          cases hsc
          cases hpe2
          exact ⟨he, hlt⟩
        · simp only [neighborScanStep, he, if_pos hlt, gt_iff_lt, if_neg hsl] at hsc
          cases hsc
          exact hb pe2 hpe2
      · simp only [neighborScanStep, he, if_neg hlt] at hsc
        cases hsc
        exact hb pe2 hpe2

lemma stepOnce_prop {demData : ParsedDEM} {pos : ℤ × ℤ} {ce : ℚ}
    {pe : (ℤ × ℤ) × ℚ} (h : stepOnce demData pos ce = some pe) :
    getElevationAtGrid pe.1.1 pe.1.2 demData = some pe.2 ∧ pe.2 < ce :=
  neighborScan_valid demData pos ce neighbors 0 none (by intro pe2 h2; cases h2) pe h

/-- The source neighbor-scan fold computes the first-of-greatest-slope
selection over the candidate list, given that all slopes are positive. -/
lemma neighborScan_pick (demData : ParsedDEM) (pos : ℤ × ℤ) (ce : ℚ)
    (hcs : 0 < demData.header.cellsize) :
    ∀ (ns : List (ℤ × ℤ × ℚ)), (∀ nb ∈ ns, 0 < nb.2.2) →
    ∀ (s : ℚ) (b : Option ((ℤ × ℤ) × ℚ)) (cur : Option (((ℤ × ℤ) × ℚ) × ℚ)),
      ((s = 0 ∧ b = none ∧ cur = none) ∨
        (0 < s ∧ ∃ pe, b = some pe ∧ cur = some (pe, s))) →
      (((ns.foldl (neighborScanStep demData pos ce) (s, b)).1 = 0 ∧
        (ns.foldl (neighborScanStep demData pos ce) (s, b)).2 = none ∧
        (ns.filterMap (candFn demData pos ce)).foldl pickStep cur = none) ∨
       (0 < (ns.foldl (neighborScanStep demData pos ce) (s, b)).1 ∧
        ∃ pe, (ns.foldl (neighborScanStep demData pos ce) (s, b)).2 = some pe ∧
          (ns.filterMap (candFn demData pos ce)).foldl pickStep cur =
            some (pe, (ns.foldl (neighborScanStep demData pos ce) (s, b)).1))) := by
  intro ns
  induction ns with
  | nil =>
    intro _ s b cur hinv
    rcases hinv with ⟨h1, h2, h3⟩ | ⟨h1, pe, h2, h3⟩
    · exact Or.inl ⟨h1, h2, h3⟩
    · exact Or.inr ⟨h1, pe, h2, h3⟩
  | cons nb t ih =>
    intro hd s b cur hinv
    have hdTail : ∀ x ∈ t, 0 < x.2.2 := fun x hx => hd x (List.mem_cons_of_mem nb hx)
    have hdHead : 0 < nb.2.2 := hd nb (List.mem_cons_self nb t)
    rcases he : getElevationAtGrid (pos.1 + nb.1) (pos.2 + nb.2.1) demData with _ | nElev
    · have hscan : neighborScanStep demData pos ce (s, b) nb = (s, b) := by
        simp only [neighborScanStep, he]
      have hcand : candFn demData pos ce nb = none := by
        simp only [candFn, he]
      simp only [List.foldl_cons, List.filterMap_cons, hscan, hcand]
      exact ih hdTail s b cur hinv
    · by_cases hlt : nElev < ce
      · have hsl : 0 < (ce - nElev) / (nb.2.2 * demData.header.cellsize) :=
          div_pos (sub_pos.2 hlt) (mul_pos hdHead hcs)
        have hcand : candFn demData pos ce nb =
            some (((pos.1 + nb.1, pos.2 + nb.2.1), nElev),
              (ce - nElev) / (nb.2.2 * demData.header.cellsize)) := by
          simp only [candFn, he, if_pos hlt]
        rcases hinv with ⟨h1, h2, h3⟩ | ⟨h1, pe, h2, h3⟩
        · have hgt0 : s < (ce - nElev) / (nb.2.2 * demData.header.cellsize) := by
            rw [h1]
            exact hsl
          have hscan : neighborScanStep demData pos ce (s, b) nb =
              ((ce - nElev) / (nb.2.2 * demData.header.cellsize),
               some ((pos.1 + nb.1, pos.2 + nb.2.1), nElev)) := by
            simp only [neighborScanStep, he, if_pos hlt, gt_iff_lt, if_pos hgt0]
          have hpick : pickStep cur
              ((((pos.1 + nb.1, pos.2 + nb.2.1), nElev),
                (ce - nElev) / (nb.2.2 * demData.header.cellsize))) =
              some ((((pos.1 + nb.1, pos.2 + nb.2.1), nElev)),
                (ce - nElev) / (nb.2.2 * demData.header.cellsize)) := by
            rw [h3]
            rfl
          simp only [List.foldl_cons, List.filterMap_cons, hscan, hcand, hpick]
          exact ih hdTail _ _ _ (Or.inr ⟨hsl, _, rfl, rfl⟩)
        · by_cases hgt : s < (ce - nElev) / (nb.2.2 * demData.header.cellsize)
          · have hscan : neighborScanStep demData pos ce (s, b) nb =
                ((ce - nElev) / (nb.2.2 * demData.header.cellsize),
                 some ((pos.1 + nb.1, pos.2 + nb.2.1), nElev)) := by
              simp only [neighborScanStep, he, if_pos hlt, gt_iff_lt, if_pos hgt]
            have hpick : pickStep cur
                ((((pos.1 + nb.1, pos.2 + nb.2.1), nElev),
                  (ce - nElev) / (nb.2.2 * demData.header.cellsize))) =
                some ((((pos.1 + nb.1, pos.2 + nb.2.1), nElev)),
                  (ce - nElev) / (nb.2.2 * demData.header.cellsize)) := by
              rw [h3]
              simp only [pickStep, gt_iff_lt, if_pos hgt]
            simp only [List.foldl_cons, List.filterMap_cons, hscan, hcand, hpick]
            exact ih hdTail _ _ _ (Or.inr ⟨hsl, _, rfl, rfl⟩)
          · have hscan : neighborScanStep demData pos ce (s, b) nb = (s, b) := by
              simp only [neighborScanStep, he, if_pos hlt, gt_iff_lt, if_neg hgt]
            have hpick : pickStep cur
                ((((pos.1 + nb.1, pos.2 + nb.2.1), nElev),
                  (ce - nElev) / (nb.2.2 * demData.header.cellsize))) = cur := by
              rw [h3]
              simp only [pickStep, gt_iff_lt, if_neg hgt]
            simp only [List.foldl_cons, List.filterMap_cons, hscan, hcand, hpick]
            exact ih hdTail s b cur (Or.inr ⟨h1, pe, h2, h3⟩)
      · have hscan : neighborScanStep demData pos ce (s, b) nb = (s, b) := by
          simp only [neighborScanStep, he, if_neg hlt]
        have hcand : candFn demData pos ce nb = none := by
          simp only [candFn, he, if_neg hlt]
        simp only [List.foldl_cons, List.filterMap_cons, hscan, hcand]
        exact ih hdTail s b cur hinv

lemma neighbors_dist_pos : ∀ nb ∈ neighbors, 0 < nb.2.2 := by
  intro nb hnb
  fin_cases hnb <;> norm_num [SQRT2]

lemma stepOnce_eq_pick (demData : ParsedDEM) (pos : ℤ × ℤ) (ce : ℚ)
    (hcs : 0 < demData.header.cellsize) :
    stepOnce demData pos ce =
      (pickFirstMax (candidates demData pos ce)).map Prod.fst := by
  have h := neighborScan_pick demData pos ce hcs neighbors neighbors_dist_pos
    0 none none (Or.inl ⟨rfl, rfl, rfl⟩)
  unfold stepOnce pickFirstMax candidates
  rcases h with ⟨_, h2, h3⟩ | ⟨_, pe, h2, h3⟩
  · rw [h2, h3]
    rfl
  · rw [h2, h3]
    rfl

lemma pickStep_from_some {α : Type} :
    ∀ (l : List (α × ℚ)) (a : α × ℚ), ∃ c, l.foldl pickStep (some a) = some c := by
  intro l
  induction l with
  | nil => intro a; exact ⟨a, rfl⟩
  | cons x t ih =>
    intro a
    rw [List.foldl_cons]
    by_cases hgt : x.2 > a.2
    · have hps : pickStep (some a) x = some x := by
        simp only [pickStep, if_pos hgt]
      rw [hps]
      exact ih x
    · have hps : pickStep (some a) x = some a := by
        simp only [pickStep, if_neg hgt]
      rw [hps]
      exact ih a

lemma pickFirstMax_none_iff {α : Type} (l : List (α × ℚ)) :
    pickFirstMax l = none ↔ l = [] := by
  constructor
  · intro h
    cases l with
    | nil => rfl
    | cons x t =>
      exfalso
      unfold pickFirstMax at h
      rw [List.foldl_cons] at h
      obtain ⟨c, hc⟩ := pickStep_from_some t x
      rw [show pickStep none x = some x from rfl] at h
      rw [hc] at h
      cases h
  · intro h
    rw [h]
    rfl

lemma pathLoop_length (origin : Origin) (demData : ParsedDEM) :
    ∀ (n : ℕ) (pos : ℤ × ℤ) (ce : ℚ),
      (pathLoop origin demData n pos ce).length ≤ n := by
  intro n
  induction n with
  | zero => intro pos ce; simp [pathLoop]
  | succ k ih =>
    intro pos ce
    rcases hstep : stepOnce demData pos ce with _ | ⟨pos2, elev2⟩
    · simp [pathLoop, hstep]
    · rcases hg : gridToWorld origin pos2.1 pos2.2 demData with _ | p
      · simp [pathLoop, hstep, hg]
      · have hlen := ih pos2 elev2
        simp only [pathLoop, hstep, hg, List.length_cons]
        omega

lemma pathLoop_chain (origin : Origin) (demData : ParsedDEM) :
    ∀ (n : ℕ) (pos : ℤ × ℤ) (ce : ℚ) (p : Vec3), p.z = ce →
      List.Chain' (fun a b => b.z < a.z) (p :: pathLoop origin demData n pos ce) := by
  intro n
  induction n with
  | zero => intro pos ce p _; simp [pathLoop]
  | succ k ih =>
    intro pos ce p hp
    rcases hstep : stepOnce demData pos ce with _ | ⟨pos2, elev2⟩
    · simp [pathLoop, hstep]
    · rcases hg : gridToWorld origin pos2.1 pos2.2 demData with _ | q
      · simp [pathLoop, hstep, hg]
      · obtain ⟨hge0, hlt0⟩ := stepOnce_prop hstep
        have hge : getElevationAtGrid pos2.1 pos2.2 demData = some elev2 := hge0
        have hlt : elev2 < ce := hlt0
        have hz : q.z = elev2 := by
          have h1 := gridToWorld_z hg
          rw [hge] at h1
          exact (Option.some_inj.1 h1).symm
        simp only [pathLoop, hstep, hg]
        exact List.chain'_cons.2 ⟨by rw [hz, hp]; exact hlt, ih pos2 elev2 q hz⟩

/-!
## Claims about the Coordinate Mapper and Flow Simulator
-/

/-- C1: for every tile and every in-bounds cell with a valid elevation,
with the global origin set (and the header invariant `cellsize > 0`),
`worldToGrid` applied to `gridToWorld(col, row, tileData)` returns exactly
`{col, row}`. -/
theorem spec_c1 (origin : Origin) (demData : ParsedDEM) (col row : ℤ) (e ox oy : ℚ)
    (hx : origin.x = some ox) (hy : origin.y = some oy)
    (hcs : 0 < demData.header.cellsize)
    (he : getElevationAtGrid col row demData = some e) :
    ∃ p, gridToWorld origin col row demData = some p ∧
      worldToGrid origin p demData.header = some (col, row) := by
  obtain ⟨hc0, hcN, hr0, hrN⟩ := getElevationAtGrid_bounds he
  refine ⟨_, gridToWorld_of_valid hx hy he, ?_⟩
  unfold worldToGrid
  rw [if_neg (not_le.2 hcs), hx, hy]
  have hcs0 : demData.header.cellsize ≠ 0 := ne_of_gt hcs
  have hxval : (demData.header.xllcorner + (((col : ℚ) + 1/2) * demData.header.cellsize -
      (demData.header.ncols - 1) * demData.header.cellsize / 2) - ox + ox -
      (demData.header.xllcorner -
        (demData.header.ncols - 1) * demData.header.cellsize / 2)) /
      demData.header.cellsize = (col : ℚ) + 1/2 := by
    field_simp
    ring
  have hyval : (demData.header.yllcorner + (((row : ℚ) + 1/2) * demData.header.cellsize -
      (demData.header.nrows - 1) * demData.header.cellsize / 2) - oy + oy -
      (demData.header.yllcorner -
        (demData.header.nrows - 1) * demData.header.cellsize / 2)) /
      demData.header.cellsize = (row : ℚ) + 1/2 := by
    field_simp
    ring
  have hfc : ⌊(col : ℚ) + 1/2⌋ = col := by
    rw [Int.floor_int_add]
    norm_num
  have hfr : ⌊(row : ℚ) + 1/2⌋ = row := by
    rw [Int.floor_int_add]
    norm_num
  simp only [hxval, hyval, hfc, hfr]
  rw [if_neg]
  push_neg
  exact ⟨hc0, hcN, hr0, hrN⟩

/-- Witness for C1 at cell (0,0) of a concrete 3×3 tile. -/
theorem spec_c1_witness :
    originW.x = some 0 ∧ originW.y = some 0 ∧ 0 < demW.header.cellsize ∧
    getElevationAtGrid 0 0 demW = some 5 ∧
    (∃ p, gridToWorld originW 0 0 demW = some p ∧
      worldToGrid originW p demW.header = some (0, 0)) :=
  ⟨rfl, rfl, by norm_num [demW], by norm_num [getElevationAtGrid, demW],
   spec_c1 originW demW 0 0 5 0 0 rfl rfl (by norm_num [demW])
     (by norm_num [getElevationAtGrid, demW])⟩

/-- C2: at each flow step, exactly the strictly lower, non-NODATA
neighbors (in the fixed order W, E, S, N, SW, SE, NW, NE) are candidates
with slope `(currentElevation - neighborElevation) / (neighborDistance *
cellsize)`; the chosen next cell is the candidate of strictly greatest
slope, ties keeping the first candidate; with no candidate the path
terminates. -/
theorem spec_c2 (demData : ParsedDEM) (pos : ℤ × ℤ) (currentElevation : ℚ)
    (hcs : 0 < demData.header.cellsize) :
    stepOnce demData pos currentElevation =
      (pickFirstMax (candidates demData pos currentElevation)).map Prod.fst ∧
    (stepOnce demData pos currentElevation = none ↔
      candidates demData pos currentElevation = []) := by
  have h := stepOnce_eq_pick demData pos currentElevation hcs
  refine ⟨h, ?_⟩
  rw [h]
  constructor
  · intro hn
    rcases hp : pickFirstMax (candidates demData pos currentElevation) with _ | c
    · exact (pickFirstMax_none_iff _).1 hp
    · rw [hp] at hn
      cases hn
  · intro hc
    rw [(pickFirstMax_none_iff _).2 hc]
    rfl

/-- Witness for C2 at a concrete 3×3 tile and its center cell. -/
theorem spec_c2_witness :
    0 < demW.header.cellsize ∧
    (stepOnce demW (1, 1) 5 =
      (pickFirstMax (candidates demW (1, 1) 5)).map Prod.fst ∧
     (stepOnce demW (1, 1) 5 = none ↔ candidates demW (1, 1) 5 = [])) :=
  ⟨by norm_num [demW], spec_c2 demW (1, 1) 5 (by norm_num [demW])⟩

/-- C3: `calculateRaindropPath` performs at most `MAX_PATH_STEPS` (2000)
step iterations, so the returned path has at most `MAX_PATH_STEPS + 1`
points; and whenever the starting cell is in bounds with a valid
elevation, the path has length at least 1 and its first point is the
center of the starting cell. -/
theorem spec_c3 (origin : Origin) (initialClick : Vec3) (demData : ParsedDEM) :
    (calculateRaindropPath origin initialClick demData).length ≤ MAX_PATH_STEPS + 1 ∧
    (∀ pos : ℤ × ℤ, ∀ ce : ℚ,
      worldToGrid origin initialClick demData.header = some pos →
      getElevationAtGrid pos.1 pos.2 demData = some ce →
      1 ≤ (calculateRaindropPath origin initialClick demData).length ∧
      ∃ p0, gridToWorld origin pos.1 pos.2 demData = some p0 ∧
        (calculateRaindropPath origin initialClick demData).head? = some p0) := by
  constructor
  · rcases hw : worldToGrid origin initialClick demData.header with _ | pos
    · simp [calculateRaindropPath, hw]
    · rcases he : getElevationAtGrid pos.1 pos.2 demData with _ | ce
      · simp [calculateRaindropPath, hw, he]
      · rcases hg : gridToWorld origin pos.1 pos.2 demData with _ | p0
        · simp [calculateRaindropPath, hw, he, hg]
        · have hlen := pathLoop_length origin demData MAX_PATH_STEPS pos ce
          simp only [calculateRaindropPath, hw, he, hg, List.length_cons]
          omega
  · intro pos ce hw he
    obtain ⟨ox, oy, hx, hy⟩ := worldToGrid_origin hw
    have hg := gridToWorld_of_valid hx hy he
    simp only [calculateRaindropPath, hw, he, hg]
    exact ⟨by simp, _, rfl, rfl⟩

/-- Witness for C3 at a concrete click on a 3×3 tile. -/
theorem spec_c3_witness :
    worldToGrid originW { x := -1/2, y := -1/2, z := 0 } demW.header = some (0, 0) ∧
    getElevationAtGrid 0 0 demW = some 5 ∧
    1 ≤ (calculateRaindropPath originW { x := -1/2, y := -1/2, z := 0 } demW).length ∧
    (∃ p0, gridToWorld originW 0 0 demW = some p0 ∧
      (calculateRaindropPath originW { x := -1/2, y := -1/2, z := 0 } demW).head? =
        some p0) :=
  ⟨by norm_num [worldToGrid, originW, demW, Int.floor_eq_zero_iff, Set.mem_Ico],
   by norm_num [getElevationAtGrid, demW],
   ((spec_c3 originW { x := -1/2, y := -1/2, z := 0 } demW).2 (0, 0) 5
     (by norm_num [worldToGrid, originW, demW, Int.floor_eq_zero_iff, Set.mem_Ico])
     (by norm_num [getElevationAtGrid, demW])).1,
   ((spec_c3 originW { x := -1/2, y := -1/2, z := 0 } demW).2 (0, 0) 5
     (by norm_num [worldToGrid, originW, demW, Int.floor_eq_zero_iff, Set.mem_Ico])
     (by norm_num [getElevationAtGrid, demW])).2⟩

/-- C10: in every path returned by `calculateRaindropPath`, the `z`
coordinates of consecutive points are strictly decreasing. -/
theorem spec_c10 (origin : Origin) (initialClick : Vec3) (demData : ParsedDEM) :
    List.Chain' (fun a b => b.z < a.z)
      (calculateRaindropPath origin initialClick demData) := by
  rcases hw : worldToGrid origin initialClick demData.header with _ | pos
  · simp [calculateRaindropPath, hw]
  · rcases he : getElevationAtGrid pos.1 pos.2 demData with _ | ce
    · simp [calculateRaindropPath, hw, he]
    · rcases hg : gridToWorld origin pos.1 pos.2 demData with _ | p0
      · simp [calculateRaindropPath, hw, he, hg]
      · have hz : p0.z = ce := by
          have h1 := gridToWorld_z hg
          rw [he] at h1
          exact (Option.some_inj.1 h1).symm
        simp only [calculateRaindropPath, hw, he, hg]
        exact pathLoop_chain origin demData MAX_PATH_STEPS pos ce p0 hz

/-!
## Helper lemmas: min/max over valid cells (Parser and Splitter)
-/

lemma foldl_mmStep_filterMap (nodata : ℚ) :
    ∀ (row : List (Option ℚ)) (acc : Option (ℚ × ℚ)),
      row.foldl (mmStep nodata) acc =
        (row.filterMap (cellVal nodata)).foldl mmValStep acc := by
  intro row
  induction row with
  | nil => intro acc; rfl
  | cons c t ih =>
    intro acc
    rw [List.foldl_cons, List.filterMap_cons]
    rcases c with _ | v
    · rw [show mmStep nodata acc none = acc from rfl,
        show cellVal nodata none = none from rfl]
      exact ih acc
    · by_cases hv : v = nodata
      · rw [show mmStep nodata acc (some v) = acc from by
          simp only [mmStep, if_pos hv],
          show cellVal nodata (some v) = none from by
          simp only [cellVal, if_pos hv]]
        exact ih acc
      · rw [show mmStep nodata acc (some v) = mmValStep acc v from by
          simp only [mmStep, mmValStep, if_neg hv],
          show cellVal nodata (some v) = some v from by
          simp only [cellVal, if_neg hv],
          List.foldl_cons]
        exact ih (mmValStep acc v)

lemma foldMinMax_validCells (nodata : ℚ) :
    ∀ (rows : List (List (Option ℚ))) (acc : Option (ℚ × ℚ)),
      rows.foldl (fun acc row => row.foldl (mmStep nodata) acc) acc =
        (validCells nodata rows).foldl mmValStep acc := by
  intro rows
  induction rows with
  | nil => intro acc; rfl
  | cons r t ih =>
    intro acc
    rw [List.foldl_cons, foldl_mmStep_filterMap nodata r acc, ih]
    show _ = (validCells nodata (r :: t)).foldl mmValStep acc
    unfold validCells
    rw [List.flatMap_cons, List.foldl_append]

lemma foldl_mmValStep_pair :
    ∀ (l : List ℚ) (a b : ℚ),
      l.foldl mmValStep (some (a, b)) = some (l.foldl min a, l.foldl max b) := by
  intro l
  induction l with
  | nil => intro a b; rfl
  | cons v t ih =>
    intro a b
    rw [List.foldl_cons, List.foldl_cons, List.foldl_cons,
      show mmValStep (some (a, b)) v = some (min a v, max b v) from rfl]
    exact ih (min a v) (max b v)

lemma foldl_min_le (l : List ℚ) :
    ∀ a : ℚ, l.foldl min a ≤ a ∧ ∀ v ∈ l, l.foldl min a ≤ v := by
  induction l with
  | nil =>
    intro a
    exact ⟨le_refl a, by intro v hv; cases hv⟩
  | cons x t ih =>
    intro a
    rw [List.foldl_cons]
    obtain ⟨h1, h2⟩ := ih (min a x)
    refine ⟨le_trans h1 (min_le_left a x), ?_⟩
    intro v hv
    rcases List.mem_cons.1 hv with rfl | hv2
    · exact le_trans h1 (min_le_right a v)
    · exact h2 v hv2

lemma foldl_min_mem (l : List ℚ) :
    ∀ a : ℚ, l.foldl min a = a ∨ l.foldl min a ∈ l := by
  induction l with
  | nil => intro a; exact Or.inl rfl
  | cons x t ih =>
    intro a
    rw [List.foldl_cons]
    rcases ih (min a x) with h | h
    · rcases min_choice a x with hm | hm
      · exact Or.inl (h.trans hm)
      · exact Or.inr (List.mem_cons.2 (Or.inl (h.trans hm)))
    · exact Or.inr (List.mem_cons.2 (Or.inr h))

lemma foldl_max_ge (l : List ℚ) :
    ∀ a : ℚ, a ≤ l.foldl max a ∧ ∀ v ∈ l, v ≤ l.foldl max a := by
  induction l with
  | nil =>
    intro a
    exact ⟨le_refl a, by intro v hv; cases hv⟩
  | cons x t ih =>
    intro a
    rw [List.foldl_cons]
    obtain ⟨h1, h2⟩ := ih (max a x)
    refine ⟨le_trans (le_max_left a x) h1, ?_⟩
    intro v hv
    rcases List.mem_cons.1 hv with rfl | hv2
    · exact le_trans (le_max_right a v) h1
    · exact h2 v hv2

lemma foldl_max_mem (l : List ℚ) :
    ∀ a : ℚ, l.foldl max a = a ∨ l.foldl max a ∈ l := by
  induction l with
  | nil => intro a; exact Or.inl rfl
  | cons x t ih =>
    intro a
    rw [List.foldl_cons]
    rcases ih (max a x) with h | h
    · rcases max_choice a x with hm | hm
      · exact Or.inl (h.trans hm)
      · exact Or.inr (List.mem_cons.2 (Or.inl (h.trans hm)))
    · exact Or.inr (List.mem_cons.2 (Or.inr h))

/-- The min/max pair extracted from `foldMinMax` (with the `0` default)
satisfies the claimed contract. -/
lemma minmaxOk_getD (nodata : ℚ) (rows : List (List (Option ℚ))) :
    minmaxOk nodata (((foldMinMax nodata rows).map Prod.fst).getD 0)
      (((foldMinMax nodata rows).map Prod.snd).getD 0) rows := by
  have hfold : foldMinMax nodata rows = (validCells nodata rows).foldl mmValStep none :=
    foldMinMax_validCells nodata rows none
  rcases hv : validCells nodata rows with _ | ⟨v, t⟩
  · rw [hv] at hfold
    constructor
    · intro _
      rw [hfold]
      exact ⟨rfl, rfl⟩
    · intro hne
      exact absurd hv hne
  · rw [hv, List.foldl_cons,
      show mmValStep none v = some (v, v) from rfl, foldl_mmValStep_pair] at hfold
    constructor
    · intro hemp
      rw [hv] at hemp
      cases hemp
    · intro _
      rw [hv, hfold]
      simp only [Option.map_some', Option.getD_some]
      obtain ⟨hminle, hminall⟩ := foldl_min_le t v
      obtain ⟨hmaxge, hmaxall⟩ := foldl_max_ge t v
      refine ⟨?_, ?_, ?_⟩
      · rcases foldl_min_mem t v with h | h
        · rw [h]
          exact List.mem_cons_self v t
        · exact List.mem_cons_of_mem v h
      · rcases foldl_max_mem t v with h | h
        · rw [h]
          exact List.mem_cons_self v t
        · exact List.mem_cons_of_mem v h
      · intro x hx
        rcases List.mem_cons.1 hx with rfl | hx2
        · exact ⟨hminle, hmaxge⟩
        · exact ⟨hminall x hx2, hmaxall x hx2⟩

lemma foldl_mmStep_replicate (nodata : ℚ) :
    ∀ (k : ℕ) (acc : Option (ℚ × ℚ)),
      (List.replicate k (some nodata)).foldl (mmStep nodata) acc = acc := by
  intro k
  induction k with
  | zero => intro acc; rfl
  | succ n ih =>
    intro acc
    rw [List.replicate_succ, List.foldl_cons,
      show mmStep nodata acc (some nodata) = acc from by simp [mmStep]]
    exact ih acc

/-- The chunk min/max fold (which skips synthesized NODATA fill rows)
coincides with the full fold over the pushed chunk rows, because fill rows
contribute nothing. -/
lemma rowRes_fold_filterMap (nodata : ℚ) :
    ∀ (rrs : List RowRes),
      (∀ row, RowRes.fill row ∈ rrs → ∃ k, row = List.replicate k (some nodata)) →
      ∀ acc, rrs.foldl (rowResMM nodata) acc =
        (rrs.filterMap rowResToRow).foldl
          (fun acc row => row.foldl (mmStep nodata) acc) acc := by
  intro rrs
  induction rrs with
  | nil => intro _ acc; rfl
  | cons rr t ih =>
    intro hfill acc
    have hfillT : ∀ row, RowRes.fill row ∈ t → ∃ k, row = List.replicate k (some nodata) :=
      fun row hr => hfill row (List.mem_cons_of_mem rr hr)
    rcases rr with _ | row | row
    · simp only [List.foldl_cons, List.filterMap_cons, rowResMM, rowResToRow]
      exact ih hfillT acc
    · obtain ⟨k, hk⟩ := hfill row (List.mem_cons_self _ _)
      simp only [List.foldl_cons, List.filterMap_cons, rowResMM, rowResToRow]
      rw [hk, foldl_mmStep_replicate]
      exact ih hfillT acc
    · simp only [List.foldl_cons, List.filterMap_cons, rowResMM, rowResToRow]
      exact ih hfillT (row.foldl (mmStep nodata) acc)

lemma chunkRow_fill (hdr : Hdr) (data : List (List (Option ℚ)))
    (startRow chunkNCols startCol endCol : ℤ) (r : ℕ) (row : List (Option ℚ))
    (h : chunkRow hdr data startRow chunkNCols startCol endCol r = RowRes.fill row) :
    row = List.replicate chunkNCols.toNat (some hdr.nodata_value) := by
  simp only [chunkRow] at h
  split at h
  · cases h
  · split at h
    · cases h
      rfl
    · cases h

lemma mkChunk_minmaxOk (hdr : Hdr) (data : List (List (Option ℚ))) (baseName : String)
    (Ty Tx cy cx : ℕ) (tile : Tile)
    (h : mkChunk hdr data baseName Ty Tx cy cx = some tile) :
    minmaxOk tile.parsedData.header.nodata_value tile.parsedData.minElev
      tile.parsedData.maxElev tile.parsedData.data := by
  simp only [mkChunk] at h
  split at h
  · cases h
  · cases h
    have hfill : ∀ row,
        RowRes.fill row ∈ (List.range (endRowOrig hdr Ty cy - startRowOrig hdr Ty cy).toNat).map
          (chunkRow hdr data (startRowOrig hdr Ty cy)
            (endColOrig hdr Tx cx - startColOrig hdr Tx cx)
            (startColOrig hdr Tx cx) (endColOrig hdr Tx cx)) →
        ∃ k, row = List.replicate k (some hdr.nodata_value) := by
      intro row hr
      rcases List.mem_map.1 hr with ⟨r, _, hcr⟩
      exact ⟨(endColOrig hdr Tx cx - startColOrig hdr Tx cx).toNat,
        chunkRow_fill hdr data _ _ _ _ r row hcr⟩
    have hmm := rowRes_fold_filterMap hdr.nodata_value _ hfill none
    show minmaxOk hdr.nodata_value _ _ _
    rw [hmm]
    exact minmaxOk_getD hdr.nodata_value _

/-!
## Claims about the Parser and Splitter min/max contract
-/

/-- C9: for every successfully parsed grid, `minElevation`/`maxElevation`
are the minimum and maximum over cells that are neither NODATA nor NaN,
both defaulting to 0 when no cell qualifies; the splitter applies the same
rule independently to each emitted tile's extracted cells. -/
theorem spec_c9 :
    (∀ (lines : List Line) (pd : ParsedDEM), parseASCIIGrid lines = some pd →
      minmaxOk pd.header.nodata_value pd.minElev pd.maxElev pd.data) ∧
    (∀ (hdr : Hdr) (data : List (List (Option ℚ))) (baseName : String) (Ty Tx : ℕ)
      (tile : Tile), tile ∈ chunkEmit hdr data baseName Ty Tx →
      minmaxOk tile.parsedData.header.nodata_value tile.parsedData.minElev
        tile.parsedData.maxElev tile.parsedData.data) := by
  constructor
  · intro lines pd h
    rcases hs : scanHdr lines lines 0 {} with _ | ⟨hm, dl⟩
    · simp only [parseASCIIGrid, hs] at h
      cases h
    · rcases hvh : validateHdr hm with _ | hdr2
      · simp only [parseASCIIGrid, hs, hvh] at h
        cases h
      · rcases hpr : parseRows ⌊hdr2.ncols⌋ ⌊hdr2.nrows⌋ hdr2.nodata_value dl with _ | rows
        · simp only [parseASCIIGrid, hs, hvh, hpr] at h
          cases h
        · simp only [parseASCIIGrid, hs, hvh, hpr] at h
          cases h
          exact minmaxOk_getD hdr2.nodata_value rows
  · intro hdr data baseName Ty Tx tile ht
    rcases List.mem_flatMap.1 ht with ⟨cy, _, hmem⟩
    rcases List.mem_filterMap.1 hmem with ⟨cx, _, hmk⟩
    exact mkChunk_minmaxOk hdr data baseName Ty Tx cy cx tile hmk

/-- Witness for C9 at a concrete 3×2 input text with one NODATA cell. -/
theorem spec_c9_witness :
    parseASCIIGrid exC9 = some pdC9 ∧
    minmaxOk pdC9.header.nodata_value pdC9.minElev pdC9.maxElev pdC9.data := by
  have hparse : parseASCIIGrid exC9 = some pdC9 := by decide
  exact ⟨hparse, spec_c9.1 exC9 pdC9 hparse⟩

/-!
## Helper lemmas: header-scan key tracking (Parser)
-/

lemma getKey_setKey_self (h : HdrMap) (k : HKey) (v : Option ℚ) :
    getKey (setKey h k v) k = some v := by
  cases k <;> rfl

lemma getKey_setKey_ne (h : HdrMap) (k2 k : HKey) (v : Option ℚ) (hne : k2 ≠ k) :
    getKey (setKey h k2 v) k = getKey h k := by
  cases k2 <;> cases k <;> first | rfl | exact absurd rfl hne

/-- The header scan never produces a numeric value for a key that no line
assigns numerically. -/
lemma scanHdr_preserves_notNum (k : HKey) :
    ∀ (ls full : List Line) (i : ℕ) (h h2 : HdrMap) (rest : List Line),
      (∀ l ∈ ls, assignsNum l k = false) →
      (∀ q, getKey h k ≠ some (some q)) →
      scanHdr full ls i h = some (h2, rest) →
      ∀ q, getKey h2 k ≠ some (some q) := by
  intro ls
  induction ls with
  | nil =>
    intro full i h h2 rest _ hnot hs
    cases hs
    exact hnot
  | cons l t ih =>
    intro full i h h2 rest hassign hnot hs
    have hassignT : ∀ x ∈ t, assignsNum x k = false :=
      fun x hx => hassign x (List.mem_cons_of_mem l hx)
    have hassignH : assignsNum l k = false := hassign l (List.mem_cons_self l t)
    rcases l with _ | _ | ts
    · rw [show scanHdr full (Line.empty :: t) i h = scanHdr full t (i + 1) h from rfl] at hs
      exact ih full (i + 1) h h2 rest hassignT hnot hs
    · rw [show scanHdr full (Line.ws :: t) i h = scanHdr full t (i + 1) h from rfl] at hs
      exact ih full (i + 1) h h2 rest hassignT hnot hs
    · rcases ts with _ | ⟨t0, tRest⟩
      · rw [show scanHdr full (Line.toks [] :: t) i h = scanHdr full t (i + 1) h from rfl] at hs
        exact ih full (i + 1) h h2 rest hassignT hnot hs
      · have hjunk : ∀ (hts : ¬∃ k2 v vr, t0 :: tRest = Tok.key k2 :: v :: vr),
            scanHdr full (Line.toks (t0 :: tRest) :: t) i h =
              (if 5 ≤ hdrCount h ∧ (t0 :: tRest).all Tok.isNum then
                some (h, Line.toks (t0 :: tRest) :: t)
              else if 10 < i ∧ hdrCount h < 4 then none
              else if t = [] then none
              else scanHdr full t (i + 1) h) := by
          intro hts
          rcases t0 with q | k2 | _
          · rfl
          · rcases tRest with _ | ⟨v, vr⟩
            · rfl
            · exact absurd ⟨k2, v, vr, rfl⟩ hts
          · rfl
        by_cases hkey : ∃ k2 v vr, t0 :: tRest = Tok.key k2 :: v :: vr
        · obtain ⟨k2, v, vr, hts⟩ := hkey
          rw [hts] at hs hassignH
          rw [show scanHdr full (Line.toks (Tok.key k2 :: v :: vr) :: t) i h =
              (if 10 < i ∧ hdrCount (setKey h k2 (parseFloat v)) < 4 then none
               else if t = [] then none
               else scanHdr full t (i + 1) (setKey h k2 (parseFloat v))) from rfl] at hs
          have hnot2 : ∀ q, getKey (setKey h k2 (parseFloat v)) k ≠ some (some q) := by
            by_cases heq : k2 = k
            · subst heq
              have hnum : (parseFloat v).isSome = false := by
                have := hassignH
                simp only [assignsNum, beq_self_eq_true, Bool.true_and] at this
                exact this
              have hvnone : parseFloat v = none := Option.not_isSome_iff_eq_none.1 (by
                rw [hnum]
                exact Bool.false_ne_true)
              rw [hvnone, getKey_setKey_self]
              intro q hq
              cases hq
            · rw [getKey_setKey_ne h k2 k _ heq]
              exact hnot
          by_cases hc1 : 10 < i ∧ hdrCount (setKey h k2 (parseFloat v)) < 4
          · rw [if_pos hc1] at hs
            cases hs
          · rw [if_neg hc1] at hs
            by_cases hc2 : t = []
            · rw [if_pos hc2] at hs
              cases hs
            · rw [if_neg hc2] at hs
              exact ih full (i + 1) _ h2 rest hassignT hnot2 hs
        · rw [hjunk hkey] at hs
          by_cases hc0 : 5 ≤ hdrCount h ∧ (t0 :: tRest).all Tok.isNum
          · rw [if_pos hc0] at hs
            cases hs
            exact hnot
          · rw [if_neg hc0] at hs
            by_cases hc1 : 10 < i ∧ hdrCount h < 4
            · rw [if_pos hc1] at hs
              cases hs
            · rw [if_neg hc1] at hs
              by_cases hc2 : t = []
              · rw [if_pos hc2] at hs
                cases hs
              · rw [if_neg hc2] at hs
                exact ih full (i + 1) h h2 rest hassignT hnot hs

/-- Validation fails when any required key has no numeric value. -/
lemma validateHdr_none (hm : HdrMap)
    (h : (∀ q, getKey hm HKey.ncols ≠ some (some q)) ∨
         (∀ q, getKey hm HKey.nrows ≠ some (some q)) ∨
         (∀ q, getKey hm HKey.cellsize ≠ some (some q))) :
    validateHdr hm = none := by
  rcases h1 : getKey hm HKey.ncols with _ | (_ | q1) <;>
    rcases h2 : getKey hm HKey.nrows with _ | (_ | q2) <;>
      rcases h3 : getKey hm HKey.cellsize with _ | (_ | q3) <;>
        simp only [validateHdr, h1, h2, h3]
  rcases h with hk | hk | hk
  · exact absurd h1 (hk q1)
  · exact absurd h2 (hk q2)
  · exact absurd h3 (hk q3)

/-!
## Claim C7 (corrected)
-/

/-- Counterexample to C7 as stated: an input whose `ncols` and `nrows`
both floor to `0` (non-positive) parses successfully instead of
returning null. -/
theorem spec_c7_counterexample :
    (parseASCIIGrid exC7c).map (fun pd => (⌊pd.header.ncols⌋, ⌊pd.header.nrows⌋)) =
      some (0, 0) := by decide

/-- C7 (amended): `parseASCIIGrid` returns null whenever `ncols`, `nrows`
or `cellsize` is missing or non-numeric (no line assigns it a numeric
value); the code performs no positivity check on the floored dimensions. -/
theorem spec_c7_amended (lines : List Line)
    (hmiss : (∀ l ∈ lines, assignsNum l HKey.ncols = false) ∨
             (∀ l ∈ lines, assignsNum l HKey.nrows = false) ∨
             (∀ l ∈ lines, assignsNum l HKey.cellsize = false)) :
    parseASCIIGrid lines = none := by
  rcases hs : scanHdr lines lines 0 {} with _ | ⟨hm, dl⟩
  · simp only [parseASCIIGrid, hs]
  · have hempty : ∀ (k : HKey) (q : ℚ),
        getKey ({} : HdrMap) k ≠ some (some q) := by
      intro k q hq
      cases k <;> cases hq
    have hnone : validateHdr hm = none := by
      apply validateHdr_none
      rcases hmiss with hk | hk | hk
      · exact Or.inl (scanHdr_preserves_notNum HKey.ncols lines lines 0 {} hm dl hk
          (hempty HKey.ncols) hs)
      · exact Or.inr (Or.inl (scanHdr_preserves_notNum HKey.nrows lines lines 0 {} hm dl hk
          (hempty HKey.nrows) hs))
      · exact Or.inr (Or.inr (scanHdr_preserves_notNum HKey.cellsize lines lines 0 {} hm dl hk
          (hempty HKey.cellsize) hs))
    simp only [parseASCIIGrid, hs, hnone]

/-- Witness for the amended C7: a text whose `ncols` value token is
non-numeric parses to null. -/
theorem spec_c7_witness :
    ((∀ l ∈ exC7w, assignsNum l HKey.ncols = false) ∨
     (∀ l ∈ exC7w, assignsNum l HKey.nrows = false) ∨
     (∀ l ∈ exC7w, assignsNum l HKey.cellsize = false)) ∧
    parseASCIIGrid exC7w = none := by
  have hm : (∀ l ∈ exC7w, assignsNum l HKey.ncols = false) ∨
      (∀ l ∈ exC7w, assignsNum l HKey.nrows = false) ∨
      (∀ l ∈ exC7w, assignsNum l HKey.cellsize = false) := Or.inl (by decide)
  exact ⟨hm, spec_c7_amended exC7w hm⟩

/-!
## Helper lemmas: header scan of canonical texts (Parser)
-/

lemma scanHdr_key_step (full : List Line) (k : HKey) (q : ℚ) (t : List Line) (i : ℕ)
    (h : HdrMap) (hi : ¬ 10 < i) (ht : t ≠ []) :
    scanHdr full (Line.toks [Tok.key k, Tok.num q] :: t) i h =
      scanHdr full t (i + 1) (setKey h k (some q)) := by
  show (if 10 < i ∧ hdrCount (setKey h k (parseFloat (Tok.num q))) < 4 then none
        else if t = [] then none
        else scanHdr full t (i + 1) (setKey h k (parseFloat (Tok.num q)))) = _
  rw [if_neg (fun hc => hi hc.1), if_neg ht]
  rfl

lemma all_map_num_isNum (l : List ℚ) : (l.map Tok.num).all Tok.isNum = true := by
  induction l with
  | nil => rfl
  | cons x t ih => simp [Tok.isNum, ih]

lemma scanHdr_data_step (full : List Line) (v : ℚ) (vs : List ℚ) (t : List Line)
    (i : ℕ) (h : HdrMap) (hcount : 5 ≤ hdrCount h) :
    scanHdr full (Line.toks ((v :: vs).map Tok.num) :: t) i h =
      some (h, Line.toks ((v :: vs).map Tok.num) :: t) := by
  show (if 5 ≤ hdrCount h ∧ (Tok.num v :: vs.map Tok.num).all Tok.isNum then
          some (h, Line.toks (Tok.num v :: vs.map Tok.num) :: t)
        else if 10 < i ∧ hdrCount h < 4 then none
        else if t = [] then none
        else scanHdr full t (i + 1) h) = _
  rw [if_pos ⟨hcount, all_map_num_isNum (v :: vs)⟩]
  rfl

lemma scan_five_keys (full : List Line) (k1 k2 k3 k4 k5 : HKey) (f : HKey → ℚ)
    (v : ℚ) (vs : List ℚ) (dtl : List Line)
    (hcount : 5 ≤ hdrCount (setKey (setKey (setKey (setKey (setKey {} k1 (some (f k1)))
      k2 (some (f k2))) k3 (some (f k3))) k4 (some (f k4))) k5 (some (f k5)))) :
    scanHdr full
      (Line.toks [Tok.key k1, Tok.num (f k1)] ::
       Line.toks [Tok.key k2, Tok.num (f k2)] ::
       Line.toks [Tok.key k3, Tok.num (f k3)] ::
       Line.toks [Tok.key k4, Tok.num (f k4)] ::
       Line.toks [Tok.key k5, Tok.num (f k5)] ::
       Line.toks ((v :: vs).map Tok.num) :: dtl) 0 {} =
    some (setKey (setKey (setKey (setKey (setKey {} k1 (some (f k1))) k2 (some (f k2)))
      k3 (some (f k3))) k4 (some (f k4))) k5 (some (f k5)),
      Line.toks ((v :: vs).map Tok.num) :: dtl) := by
  rw [scanHdr_key_step full k1 (f k1) _ 0 {} (by norm_num) (List.cons_ne_nil _ _)]
  rw [scanHdr_key_step full k2 (f k2) _ 1 _ (by norm_num) (List.cons_ne_nil _ _)]
  rw [scanHdr_key_step full k3 (f k3) _ 2 _ (by norm_num) (List.cons_ne_nil _ _)]
  rw [scanHdr_key_step full k4 (f k4) _ 3 _ (by norm_num) (List.cons_ne_nil _ _)]
  rw [scanHdr_key_step full k5 (f k5) _ 4 _ (by norm_num) (List.cons_ne_nil _ _)]
  exact scanHdr_data_step full v vs dtl 5 _ hcount

/-!
## Claim C8 (corrected)
-/

/-- Counterexample to C8 as stated: a text providing numeric `ncols`,
`nrows`, `cellsize` (and `nodata_value`) but omitting both `xllcorner`
and `yllcorner` fails (returns null), because the data-start heuristic
requires at least five header keys. -/
theorem spec_c8_counterexample : parseASCIIGrid exC8c = none := by decide

/-- C8 (amended): a canonical text whose header omits exactly one of
`xllcorner` / `yllcorner` / `nodata_value` (the other five keys numeric),
followed by at least one all-numeric data row, parses successfully with
the fixed default (0, 0, or the sentinel −99) substituted for the omitted
key — provided the floored `ncols` is nonnegative (otherwise the data
loop throws).  The original claim's blanket "does not fail" is refuted by
the counterexample above; whether a text omitting two optional keys fails
depends on further details of the text (see the blank-tail lemma below,
where the end-of-file throw is skipped and the same header set parses
with both defaults). -/
theorem spec_c8_amended (kmiss : HKey) (f : HKey → ℚ) (d0 : List ℚ)
    (dtl : List (List ℚ))
    (hk : kmiss = HKey.xllcorner ∨ kmiss = HKey.yllcorner ∨ kmiss = HKey.nodata)
    (hd0 : d0 ≠ []) (hnc : 0 ≤ ⌊f HKey.ncols⌋) :
    ∃ pd, parseASCIIGrid (canonicalText kmiss f (d0 :: dtl)) = some pd ∧
      pd.header = expectedHdr kmiss f := by
  rcases d0 with _ | ⟨v, vs⟩
  · exact absurd rfl hd0
  have hpr : ∀ (h2 : Hdr) (dl : List Line), h2.ncols = f HKey.ncols →
      ∃ rows, parseRows ⌊h2.ncols⌋ ⌊h2.nrows⌋ h2.nodata_value dl = some rows := by
    intro h2 dl hh2
    unfold parseRows
    rw [if_neg]
    · exact ⟨_, rfl⟩
    · intro hcon
      rw [hh2] at hcon
      exact absurd hcon.2 (not_lt.2 hnc)
  rcases hk with rfl | rfl | rfl
  · have hct : canonicalText HKey.xllcorner f ((v :: vs) :: dtl) =
        Line.toks [Tok.key HKey.ncols, Tok.num (f HKey.ncols)] ::
        Line.toks [Tok.key HKey.nrows, Tok.num (f HKey.nrows)] ::
        Line.toks [Tok.key HKey.yllcorner, Tok.num (f HKey.yllcorner)] ::
        Line.toks [Tok.key HKey.cellsize, Tok.num (f HKey.cellsize)] ::
        Line.toks [Tok.key HKey.nodata, Tok.num (f HKey.nodata)] ::
        Line.toks ((v :: vs).map Tok.num) ::
        dtl.map (fun row => Line.toks (row.map Tok.num)) := rfl
    have hscan2 : scanHdr (canonicalText HKey.xllcorner f ((v :: vs) :: dtl)) (canonicalText HKey.xllcorner f ((v :: vs) :: dtl)) 0 {} =
        some ((setKey (setKey (setKey (setKey (setKey {} HKey.ncols (some (f HKey.ncols))) HKey.nrows (some (f HKey.nrows))) HKey.yllcorner (some (f HKey.yllcorner))) HKey.cellsize (some (f HKey.cellsize))) HKey.nodata (some (f HKey.nodata))),
          Line.toks ((v :: vs).map Tok.num) ::
            dtl.map (fun row => Line.toks (row.map Tok.num))) := by
      rw [hct]
      exact scan_five_keys _ HKey.ncols HKey.nrows HKey.yllcorner HKey.cellsize
        HKey.nodata f v vs _ (by exact Nat.le_refl 5)
    have hval : validateHdr (setKey (setKey (setKey (setKey (setKey {} HKey.ncols (some (f HKey.ncols))) HKey.nrows (some (f HKey.nrows))) HKey.yllcorner (some (f HKey.yllcorner))) HKey.cellsize (some (f HKey.cellsize))) HKey.nodata (some (f HKey.nodata))) =
        some (expectedHdr HKey.xllcorner f) := rfl
    obtain ⟨rows, hrows⟩ := hpr (expectedHdr HKey.xllcorner f)
      (Line.toks ((v :: vs).map Tok.num) ::
        dtl.map (fun row => Line.toks (row.map Tok.num))) rfl
    refine ⟨{ header := expectedHdr HKey.xllcorner f, data := rows,
              minElev := ((foldMinMax (expectedHdr HKey.xllcorner f).nodata_value rows).map
                Prod.fst).getD 0,
              maxElev := ((foldMinMax (expectedHdr HKey.xllcorner f).nodata_value rows).map
                Prod.snd).getD 0 }, ?_, rfl⟩
    simp only [parseASCIIGrid, hscan2, hval, hrows]
  · have hct : canonicalText HKey.yllcorner f ((v :: vs) :: dtl) =
        Line.toks [Tok.key HKey.ncols, Tok.num (f HKey.ncols)] ::
        Line.toks [Tok.key HKey.nrows, Tok.num (f HKey.nrows)] ::
        Line.toks [Tok.key HKey.xllcorner, Tok.num (f HKey.xllcorner)] ::
        Line.toks [Tok.key HKey.cellsize, Tok.num (f HKey.cellsize)] ::
        Line.toks [Tok.key HKey.nodata, Tok.num (f HKey.nodata)] ::
        Line.toks ((v :: vs).map Tok.num) ::
        dtl.map (fun row => Line.toks (row.map Tok.num)) := rfl
    have hscan2 : scanHdr (canonicalText HKey.yllcorner f ((v :: vs) :: dtl)) (canonicalText HKey.yllcorner f ((v :: vs) :: dtl)) 0 {} =
        some ((setKey (setKey (setKey (setKey (setKey {} HKey.ncols (some (f HKey.ncols))) HKey.nrows (some (f HKey.nrows))) HKey.xllcorner (some (f HKey.xllcorner))) HKey.cellsize (some (f HKey.cellsize))) HKey.nodata (some (f HKey.nodata))),
          Line.toks ((v :: vs).map Tok.num) ::
            dtl.map (fun row => Line.toks (row.map Tok.num))) := by
      rw [hct]
      exact scan_five_keys _ HKey.ncols HKey.nrows HKey.xllcorner HKey.cellsize
        HKey.nodata f v vs _ (by exact Nat.le_refl 5)
    have hval : validateHdr (setKey (setKey (setKey (setKey (setKey {} HKey.ncols (some (f HKey.ncols))) HKey.nrows (some (f HKey.nrows))) HKey.xllcorner (some (f HKey.xllcorner))) HKey.cellsize (some (f HKey.cellsize))) HKey.nodata (some (f HKey.nodata))) =
        some (expectedHdr HKey.yllcorner f) := rfl
    obtain ⟨rows, hrows⟩ := hpr (expectedHdr HKey.yllcorner f)
      (Line.toks ((v :: vs).map Tok.num) ::
        dtl.map (fun row => Line.toks (row.map Tok.num))) rfl
    refine ⟨{ header := expectedHdr HKey.yllcorner f, data := rows,
              minElev := ((foldMinMax (expectedHdr HKey.yllcorner f).nodata_value rows).map
                Prod.fst).getD 0,
              maxElev := ((foldMinMax (expectedHdr HKey.yllcorner f).nodata_value rows).map
                Prod.snd).getD 0 }, ?_, rfl⟩
    simp only [parseASCIIGrid, hscan2, hval, hrows]
  · have hct : canonicalText HKey.nodata f ((v :: vs) :: dtl) =
        Line.toks [Tok.key HKey.ncols, Tok.num (f HKey.ncols)] ::
        Line.toks [Tok.key HKey.nrows, Tok.num (f HKey.nrows)] ::
        Line.toks [Tok.key HKey.xllcorner, Tok.num (f HKey.xllcorner)] ::
        Line.toks [Tok.key HKey.yllcorner, Tok.num (f HKey.yllcorner)] ::
        Line.toks [Tok.key HKey.cellsize, Tok.num (f HKey.cellsize)] ::
        Line.toks ((v :: vs).map Tok.num) ::
        dtl.map (fun row => Line.toks (row.map Tok.num)) := rfl
    have hscan2 : scanHdr (canonicalText HKey.nodata f ((v :: vs) :: dtl)) (canonicalText HKey.nodata f ((v :: vs) :: dtl)) 0 {} =
        some ((setKey (setKey (setKey (setKey (setKey {} HKey.ncols (some (f HKey.ncols))) HKey.nrows (some (f HKey.nrows))) HKey.xllcorner (some (f HKey.xllcorner))) HKey.yllcorner (some (f HKey.yllcorner))) HKey.cellsize (some (f HKey.cellsize))),
          Line.toks ((v :: vs).map Tok.num) ::
            dtl.map (fun row => Line.toks (row.map Tok.num))) := by
      rw [hct]
      exact scan_five_keys _ HKey.ncols HKey.nrows HKey.xllcorner HKey.yllcorner
        HKey.cellsize f v vs _ (by exact Nat.le_refl 5)
    have hval : validateHdr (setKey (setKey (setKey (setKey (setKey {} HKey.ncols (some (f HKey.ncols))) HKey.nrows (some (f HKey.nrows))) HKey.xllcorner (some (f HKey.xllcorner))) HKey.yllcorner (some (f HKey.yllcorner))) HKey.cellsize (some (f HKey.cellsize))) =
        some (expectedHdr HKey.nodata f) := rfl
    obtain ⟨rows, hrows⟩ := hpr (expectedHdr HKey.nodata f)
      (Line.toks ((v :: vs).map Tok.num) ::
        dtl.map (fun row => Line.toks (row.map Tok.num))) rfl
    refine ⟨{ header := expectedHdr HKey.nodata f, data := rows,
              minElev := ((foldMinMax (expectedHdr HKey.nodata f).nodata_value rows).map
                Prod.fst).getD 0,
              maxElev := ((foldMinMax (expectedHdr HKey.nodata f).nodata_value rows).map
                Prod.snd).getD 0 }, ?_, rfl⟩
    simp only [parseASCIIGrid, hscan2, hval, hrows]

/-- Witness for the amended C8: omitting only `nodata_value` from a
concrete canonical text parses with the −99 default substituted. -/
theorem spec_c8_witness :
    ((HKey.nodata = HKey.xllcorner ∨ HKey.nodata = HKey.yllcorner ∨
      HKey.nodata = HKey.nodata) ∧ ([(7 : ℚ), 8] ≠ []) ∧ 0 ≤ ⌊fC8 HKey.ncols⌋) ∧
    (∃ pd, parseASCIIGrid (canonicalText HKey.nodata fC8 [[7, 8]]) = some pd ∧
      pd.header = expectedHdr HKey.nodata fC8) := by
  refine ⟨⟨by decide, by decide, by decide⟩, ?_⟩
  exact spec_c8_amended HKey.nodata fC8 [7, 8] [] (by decide) (by decide) (by decide)

/-- Boundary case of the data-start heuristic: the same header set as the
counterexample (both `xllcorner` and `yllcorner` omitted), but with a
trailing blank line.  The blank line is skipped by the header loop
without reaching the end-of-file check, so `dataStartIndex` stays 0, the
scan completes, and the parse returns non-null with both corner defaults
substituted — omitting two optional keys is not always fatal. -/
lemma parseASCIIGrid_blank_tail_defaults :
    (parseASCIIGrid (exC8c ++ [Line.empty])).map
      (fun pd => (pd.header.xllcorner, pd.header.yllcorner)) = some (0, 0) := by
  decide

end FilesConvertor
